import Mathlib

/-!
Verification of `mlens/parallel/stacking.py` (parallel stacked-ensemble
execution engine).

Shallow embedding conventions:
* Python strings are modelled as `List Char` (`Str`); `'%s__%i' % (a, i)`
  becomes `a ++ sep ++ natChars i`, `s.split('__')[0]` becomes `before2 s`,
  and `'__' in s` becomes `has2 s`.
* Python dicts are association lists with overwrite-on-insert (`dinsert`)
  and first-match lookup (`dlookup`); a missing key (Python `KeyError`)
  surfaces as `Except.error`.
* Estimator/transformer objects are `Inst`: a record of `fit`, `transform`
  and `predict` functions, each returning `Except Str _` (an exception is a
  `.error`).  `sklearn.base.clone` is the identity on this model.
* The numpy prediction matrix is a total function `Nat → Nat → PVal`
  (`PVal.nan` models the NaN cells that numpy produces when `None` is
  assigned into a float buffer).
* The cache directory is a function `Str → Option CacheVal`;
  `pickle_save`/`pickle_load` are update/lookup.
* Wall-clock time in `_load_trans` is discretised: the filesystem is a
  function from the elapsed seconds to the cache entry's visibility, and
  `sleep(s)` advances time by `s`.  The loop carries explicit fuel; fuel
  exhaustion is the model artifact `Err.outOfFuel`, unreachable for
  sufficiently large fuel.
-/

namespace MlensStacking

/-- Python strings as lists of characters. -/
abbrev Str := List Char

/-- The `'__'` separator used by the fold-name encoding. -/
def sep : Str := ['_', '_']

/-- Decimal digit characters, used to model Python `'%i' % n`. -/
def digitChar : Nat → Char
  | 0 => '0' | 1 => '1' | 2 => '2' | 3 => '3' | 4 => '4'
  | 5 => '5' | 6 => '6' | 7 => '7' | 8 => '8' | _ => '9'

/-- Digit-accumulator loop for `natChars` (structural fuel recursion; the
fuel `n` itself always suffices since `n / 10` shrinks strictly). -/
def natCharsAux : Nat → Nat → Str → Str
  | 0, n, acc => digitChar n :: acc
  | fuel + 1, n, acc =>
    if n < 10 then digitChar n :: acc
    else natCharsAux fuel (n / 10) (digitChar (n % 10) :: acc)

/-- Decimal rendering of a natural number (Python `'%i' % n`). -/
def natChars (n : Nat) : Str := natCharsAux n n []

/-- Python `'__' in s`: does the string contain two consecutive underscores? -/
def has2 : Str → Bool
  | [] => false
  | [_] => false
  | a :: b :: t => (a = '_' && b = '_') || has2 (b :: t)

/-- Python `s.split('__')[0]`: the prefix before the first `'__'`. -/
def before2 : Str → Str
  | [] => []
  | [c] => [c]
  | a :: b :: t => if a = '_' && b = '_' then [] else a :: before2 (b :: t)

theorem has2_cons_false {c : Char} {l : Str} (h : has2 (c :: l) = false) :
    has2 l = false := by
  cases l with
  | nil => rfl
  | cons b t =>
    simp only [has2, Bool.or_eq_false_iff] at h
    exact h.2

theorem has2_append_left {a : Str} (b : Str) (h : has2 a = true) :
    has2 (a ++ b) = true := by
  induction a with
  | nil => simp [has2] at h
  | cons c t ih =>
    cases t with
    | nil => simp [has2] at h
    | cons d u =>
      simp only [has2, Bool.or_eq_true] at h
      rcases h with h | h
      · simp [has2, h]
      · simp only [List.cons_append, has2, Bool.or_eq_true]
        exact Or.inr (ih h)

theorem has2_of_clean {a : Str} (h : has2 (a ++ ['_']) = false) : has2 a = false := by
  cases ha : has2 a with
  | false => rfl
  | true =>
    rw [has2_append_left ['_'] ha] at h
    exact absurd h (by decide)

/-- Any string of the shape `a ++ sep ++ b` contains `'__'`. -/
theorem has2_sep (a b : Str) : has2 (a ++ sep ++ b) = true := by
  induction a with
  | nil => simp [sep, has2]
  | cons c t ih =>
    cases h : t ++ sep ++ b with
    | nil => exact absurd h (by simp [sep])
    | cons d u =>
      have hcons : (c :: t) ++ sep ++ b = c :: d :: u := by
        rw [List.cons_append, List.cons_append, h]
      have hih : has2 (d :: u) = true := h ▸ ih
      rw [hcons]
      simp [has2, hih]

theorem before2_clean {a : Str} (h : has2 a = false) : before2 a = a := by
  induction a with
  | nil => rfl
  | cons c t ih =>
    cases t with
    | nil => rfl
    | cons d u =>
      simp only [has2, Bool.or_eq_false_iff] at h
      simp only [before2]
      rw [if_neg (by simpa using h.1), ih h.2]

/-- Stripping at the first `'__'` recovers the left part of
`a ++ sep ++ b`, provided `a` neither contains `'__'` nor ends in `'_'`
(equivalently `a ++ ['_']` is `'__'`-free). -/
theorem before2_sep {a : Str} (b : Str) (h : has2 (a ++ ['_']) = false) :
    before2 (a ++ sep ++ b) = a := by
  induction a with
  | nil => simp [sep, before2]
  | cons c t ih =>
    have htail : has2 (t ++ ['_']) = false := has2_cons_false h
    cases ht : t with
    | nil =>
      subst ht
      have hc : ¬ ((c = '_' && '_' = '_') = true) := by
        simpa [has2] using h
      show before2 (c :: '_' :: '_' :: b) = [c]
      simp only [before2]
      rw [if_neg (by simpa using hc)]
      cases b <;> simp [before2]
    | cons d u =>
      subst ht
      have hcd : ¬ ((c = '_' && d = '_') = true) := by
        have h' := h
        simp only [List.cons_append, has2, Bool.or_eq_false_iff] at h'
        rw [h'.1]
        decide
      show before2 (c :: d :: (u ++ sep ++ b)) = c :: d :: u
      simp only [before2]
      rw [if_neg (by simpa using hcd)]
      exact congrArg (c :: ·) (ih htail)

theorem has2_no_underscore {l : Str} (h : ∀ c ∈ l, c ≠ '_') : has2 l = false := by
  induction l with
  | nil => rfl
  | cons c t ih =>
    cases t with
    | nil => rfl
    | cons d u =>
      simp only [has2, Bool.or_eq_false_iff]
      constructor
      · have := h c (by simp)
        simp [this]
      · exact ih (fun x hx => h x (by simp [hx]))

theorem digitChar_ne_underscore (d : Nat) : digitChar d ≠ '_' := by
  match d with
  | 0 | 1 | 2 | 3 | 4 | 5 | 6 | 7 | 8 => decide
  | n + 9 =>
    have h9 : digitChar (n + 9) = '9' := rfl
    rw [h9]
    decide

theorem natCharsAux_no_underscore :
    ∀ fuel n acc, (∀ c ∈ acc, c ≠ '_') → ∀ c ∈ natCharsAux fuel n acc, c ≠ '_' := by
  intro fuel
  induction fuel with
  | zero =>
    intro n acc hacc c hc
    rcases List.mem_cons.mp hc with h | h
    · subst h; exact digitChar_ne_underscore n
    · exact hacc c h
  | succ m ih =>
    intro n acc hacc c hc
    rw [natCharsAux] at hc
    by_cases h : n < 10
    · rw [if_pos h] at hc
      rcases List.mem_cons.mp hc with h' | h'
      · subst h'; exact digitChar_ne_underscore n
      · exact hacc c h'
    · rw [if_neg h] at hc
      refine ih (n / 10) (digitChar (n % 10) :: acc) ?_ c hc
      intro x hx
      rcases List.mem_cons.mp hx with h' | h'
      · subst h'; exact digitChar_ne_underscore (n % 10)
      · exact hacc x h'

theorem natChars_no_underscore (n : Nat) : ∀ c ∈ natChars n, c ≠ '_' :=
  natCharsAux_no_underscore n n [] (by intro c hc; cases hc)

theorem has2_natChars (n : Nat) : has2 (natChars n) = false :=
  has2_no_underscore (natChars_no_underscore n)

/-! ### Python dicts as association lists -/

/-- Python `d[k] = v`: overwrite in place, or append a fresh binding. -/
def dinsert {κ ν : Type} [DecidableEq κ] : List (κ × ν) → κ → ν → List (κ × ν)
  | [], k, v => [(k, v)]
  | (k', v') :: rest, k, v =>
    if k' = k then (k, v) :: rest else (k', v') :: dinsert rest k v

/-- Python `d[k]` lookup (first matching binding). -/
def dlookup {κ ν : Type} [DecidableEq κ] : List (κ × ν) → κ → Option ν
  | [], _ => none
  | (k', v') :: rest, k => if k' = k then some v' else dlookup rest k

theorem dlookup_dinsert_self {κ ν : Type} [DecidableEq κ]
    (m : List (κ × ν)) (k : κ) (v : ν) : dlookup (dinsert m k v) k = some v := by
  induction m with
  | nil => simp [dinsert, dlookup]
  | cons p rest ih =>
    obtain ⟨k', v'⟩ := p
    simp only [dinsert]
    by_cases h : k' = k
    · rw [if_pos h]; simp [dlookup]
    · rw [if_neg h]; simp only [dlookup, if_neg h]; exact ih

theorem dlookup_dinsert_ne {κ ν : Type} [DecidableEq κ]
    (m : List (κ × ν)) {k k' : κ} (v : ν) (h : k' ≠ k) :
    dlookup (dinsert m k v) k' = dlookup m k' := by
  induction m with
  | nil =>
    simp only [dinsert, dlookup]
    rw [if_neg (fun e => h (Eq.symm e))]
  | cons p rest ih =>
    obtain ⟨k0, v0⟩ := p
    simp only [dinsert]
    by_cases h0 : k0 = k
    · rw [if_pos h0]
      subst h0
      simp only [dlookup]
      rw [if_neg (fun e => h (Eq.symm e)), if_neg (fun e => h (Eq.symm e))]
    · rw [if_neg h0]
      by_cases h1 : k0 = k'
      · simp [dlookup, h1]
      · simp only [dlookup, if_neg h1]
        exact ih

theorem dlookup_append_left {κ ν : Type} [DecidableEq κ]
    (m₁ m₂ : List (κ × ν)) {k : κ} {v : ν} (h : dlookup m₁ k = some v) :
    dlookup (m₁ ++ m₂) k = some v := by
  induction m₁ with
  | nil => simp [dlookup] at h
  | cons p rest ih =>
    obtain ⟨k', v'⟩ := p
    simp only [dlookup] at h ⊢
    by_cases hk : k' = k
    · rwa [if_pos hk] at h ⊢
    · rw [if_neg hk] at h ⊢; exact ih h

theorem dlookup_append_right {κ ν : Type} [DecidableEq κ]
    (m₁ m₂ : List (κ × ν)) {k : κ} (h : k ∉ m₁.map Prod.fst) :
    dlookup (m₁ ++ m₂) k = dlookup m₂ k := by
  induction m₁ with
  | nil => rfl
  | cons p rest ih =>
    obtain ⟨k', v'⟩ := p
    simp only [List.map_cons, List.mem_cons] at h
    push_neg at h
    simp only [List.cons_append, dlookup]
    rw [if_neg (fun e => h.1 (Eq.symm e))]
    exact ih h.2

theorem dinsert_fresh {κ ν : Type} [DecidableEq κ]
    (m : List (κ × ν)) {k : κ} (v : ν) (h : k ∉ m.map Prod.fst) :
    dinsert m k v = m ++ [(k, v)] := by
  induction m with
  | nil => rfl
  | cons p rest ih =>
    obtain ⟨k', v'⟩ := p
    simp only [List.map_cons, List.mem_cons] at h
    push_neg at h
    simp only [dinsert, List.cons_append]
    rw [if_neg (fun e => h.1 (Eq.symm e))]
    rw [ih h.2]

/-! ### Sorting of dict keys (Python `sorted(d)` over string keys) -/

/-- Lexicographic comparison on character codes (Python string `<=`). -/
def strLe : Str → Str → Bool
  | [], _ => true
  | _ :: _, [] => false
  | a :: as, b :: bs =>
    if a.val < b.val then true
    else if b.val < a.val then false
    else strLe as bs

/-- Insert into a sorted list (helper for `isort`). -/
def insSorted (x : Str) : List Str → List Str
  | [] => [x]
  | y :: t => if strLe x y then x :: y :: t else y :: insSorted x t

/-- Insertion sort; models Python `sorted` on a list of strings. -/
def isort : List Str → List Str
  | [] => []
  | x :: t => insSorted x (isort t)

/-- Python `sorted(d)` for a dict: the sorted list of keys. -/
def sortKeys {ν : Type} (m : List (Str × ν)) : List Str :=
  isort (m.map Prod.fst)

theorem insSorted_perm (x : Str) (l : List Str) :
    (insSorted x l).Perm (x :: l) := by
  induction l with
  | nil => simp [insSorted]
  | cons y t ih =>
    simp only [insSorted]
    by_cases h : strLe x y
    · rw [if_pos h]
    · rw [if_neg h]
      exact ((ih.cons y).trans (List.Perm.swap x y t))

theorem isort_perm (l : List Str) : (isort l).Perm l := by
  induction l with
  | nil => simp [isort]
  | cons x t ih =>
    exact (insSorted_perm x (isort t)).trans (ih.cons x)

theorem sortKeys_perm {ν : Type} (m : List (Str × ν)) :
    (sortKeys m).Perm (m.map Prod.fst) := isort_perm _

theorem mem_sortKeys {ν : Type} {m : List (Str × ν)} {c : Str} :
    c ∈ sortKeys m ↔ c ∈ m.map Prod.fst := (sortKeys_perm m).mem_iff

theorem length_sortKeys {ν : Type} (m : List (Str × ν)) :
    (sortKeys m).length = m.length := by
  rw [(sortKeys_perm m).length_eq, List.length_map]

theorem dlookup_isSome_of_mem_keys {ν : Type} {m : List (Str × ν)} {c : Str}
    (h : c ∈ m.map Prod.fst) : (dlookup m c).isSome := by
  induction m with
  | nil => simp at h
  | cons p rest ih =>
    obtain ⟨k, v⟩ := p
    simp only [List.map_cons, List.mem_cons] at h
    simp only [dlookup]
    by_cases hk : k = c
    · simp [hk]
    · rw [if_neg hk]
      exact ih (h.resolve_left (by exact fun e => hk e.symm))

/-! ### Data model

`Inst` models a duck-typed estimator/transformer object: each capability is
a function that either returns normally (`Except.ok`) or raises a Python
exception carrying a message (`Except.error`).  `fit` returns the fitted
object (sklearn convention).  The data matrix is a list of rows of integers
and a prediction vector is a list of integers; the claims never compute on
the numeric payloads.  -/

/-- A data matrix (`numpy` 2-D array): list of rows. -/
abbrev Dm := List (List Int)

/-- An estimator/transformer instance (capability record, exceptions as
`Except.error`). -/
inductive Inst where
  | mk (fit : Dm → List Int → Except Str Inst)
       (transform : Dm → Except Str Dm)
       (predict : Dm → Except Str (List Int))

/-- `obj.fit(x, y)`. -/
def Inst.fit : Inst → Dm → List Int → Except Str Inst
  | .mk f _ _, x, y => f x y

/-- `obj.transform(x)`. -/
def Inst.transform : Inst → Dm → Except Str Dm
  | .mk _ t _, x => t x

/-- `obj.predict(x)`. -/
def Inst.predict : Inst → Dm → Except Str (List Int)
  | .mk _ _ p, x => p x

/-- `sklearn.base.clone`: an independent copy; pure model: identity. -/
def clone (e : Inst) : Inst := e

/-- The polymorphic instance-collection shape: a case-partitioned dict or a
flat list of `(name, instance)` tuples (`isinstance(instance_list, dict)`
distinguishes the two in the source). -/
inductive InstColl where
  | cases (m : List (Str × List (Str × Inst)))
  | flat (l : List (Str × Inst))

/-- A half-open row range `(lo, hi)`. -/
abbrev Rng := Nat × Nat

/-- An estimation tuple `(case, train_idx, test_idx, est_list)` as built by
`expand_instance_list`.  `cid` is the case id (`None` for the flat
full-data task). -/
structure ETask where
  cid : Option Str
  tri : Option Rng
  tei : Option Rng
  insts : List (Str × Inst)

/-- `(tri[0], tri[-1] + 1)` — the span of a fold index array.  (The source
raises `IndexError` on an empty index array; the defaults are never used
under the nonemptiness hypotheses of the theorems below.) -/
def span (l : List Nat) : Rng := (l.headD 0, l.getLastD 0 + 1)

/-- `'%s__%i' % (s, i)` — the fold-variant name of a case or instance. -/
def foldName (s : Str) (i : Nat) : Str := s ++ sep ++ natChars i

/-- `expand_instance_list(instance_list, kf, X)` — build the list of
estimation tuples.  The fold generator `kf.split(X)` is modelled by its
emitted sequence of `(train_indices, test_indices)` pairs. -/
def expand_instance_list (il : InstColl)
    (kf : Option (List (List Nat × List Nat))) : List ETask :=
  match il with
  | .cases m =>
    let cs := sortKeys m
    let full : List ETask :=
      cs.map (fun c => ⟨some c, none, none,
        ((dlookup m c).getD []).map (fun p => (p.1, clone p.2))⟩)
    let folds : List ETask :=
      match kf with
      | none => []
      | some ks =>
        cs.flatMap (fun c =>
          ks.enum.map (fun q =>
            ⟨some (foldName c q.1), some (span q.2.1), some (span q.2.2),
             ((dlookup m c).getD []).map
               (fun p => (foldName p.1 q.1, clone p.2))⟩))
    full ++ folds
  | .flat l =>
    let full : List ETask :=
      [⟨none, none, none, l.map (fun p => (p.1, clone p.2))⟩]
    let folds : List ETask :=
      match kf with
      | none => []
      | some ks =>
        ks.enum.map (fun q =>
          ⟨some (natChars q.1), some (span q.2.1), some (span q.2.2),
           l.map (fun p => (foldName p.1 q.1, clone p.2))⟩)
    full ++ folds

/-- The reserved instance name `'__trans__'`. -/
def transName : Str := "__trans__".data

/-- `_wrap(folded_list, name='__trans__')`: wrap each folded transformer
list as a single pseudo-instance named `name` (generic in the payload
type, as the wrapped value is the whole list). -/
def _wrap {α : Type} (folded : List (Option Str × Option Rng × Option Rng × α))
    (nm : Str) : List (Option Str × Option Rng × Option Rng × List (Str × α)) :=
  folded.map (fun q => (q.1, q.2.1, none, [(nm, q.2.2.2)]))

/-! ### Errors and warnings -/

/-- Python exception classes observable from this module. -/
inductive Err where
  | fitFailedError (msg : Str)
  | parallelProcessingError (msg : Str)
  | keyError (msg : Str)
  | typeError (msg : Str)
  | attributeError (msg : Str)
  | fileNotFoundError (msg : Str)
  | outOfFuel
deriving DecidableEq

/-- Warnings emitted through `warnings.warn`. -/
inductive Warn where
  | fitFailedWarning (msg : Str)
  | parallelProcessingWarning (msg : Str)
deriving DecidableEq

/-- `_name(layer_name, case)`: the contextual message prefix. -/
def _name (layer_name : Option Str) (case : Option Str) : Str :=
  match layer_name, case with
  | none, none => []
  | some l, some c => ['['] ++ l ++ " | ".data ++ c ++ " ] ".data
  | some l, none => ['['] ++ l ++ "] ".data
  | none, some c => ['['] ++ c ++ "] ".data

/-! ### Column index assignment (`get_col_idx`) -/

/-- Keys of the column map: `(case_or_None, instance_name)`. -/
abbrev ColKey := Option Str × Str

/-- The column map (Python dict with tuple keys). -/
abbrev IdxMap := List (ColKey × Nat)

/-- Inner loop of the main-column pass for the case-partitioned branch:
`for inst_name, _ in estimators[case]: idx[case, inst_name] = col; col += 1`. -/
def baseInner (c : Str) : List (Str × Inst) → Nat → IdxMap → IdxMap × Nat
  | [], col, idx => (idx, col)
  | (n, _) :: rest, col, idx =>
    baseInner c rest (col + 1) (dinsert idx (some c, n) col)

/-- Outer loop of the main-column pass (case-partitioned branch); a missing
case in `estimators` is a Python `KeyError`. -/
def baseOuter (em : List (Str × List (Str × Inst))) :
    List Str → Nat → IdxMap → Except Err (IdxMap × Nat)
  | [], col, idx => .ok (idx, col)
  | c :: cs, col, idx =>
    match dlookup em c with
    | none => .error (.keyError c)
    | some insts =>
      let r := baseInner c insts col idx
      baseOuter em cs r.2 r.1

/-- The flat-branch main-column pass:
`{(None, inst_name): i for i, (inst_name, _) in enumerate(estimators)}`. -/
def flatBase : List (Str × Inst) → Nat → IdxMap → IdxMap
  | [], _, idx => idx
  | (n, _) :: rest, i, idx => flatBase rest (i + 1) (dinsert idx (none, n) i)

/-- Inner loop of the propagation pass:
`for inst_name_fold_num, _ in tup[-1]: idx[tup[0], inst_name_fold_num] =
idx[case, inst_name]` (a missing parent key is a `KeyError`). -/
def propInner (tcase : Str) (parent : Option Str) :
    List (Str × Inst) → IdxMap → Except Err IdxMap
  | [], idx => .ok idx
  | (nf, _) :: rest, idx =>
    match dlookup idx (parent, before2 nf) with
    | none => .error (.keyError (before2 nf))
    | some v => propInner tcase parent rest (dinsert idx (some tcase, nf) v)

/-- The parent case id recovered by the propagation pass:
`tup[0].split('__')[0] if '__' in tup[0] else None`. -/
def parentCase (cf : Str) : Option Str := if has2 cf then some (before2 cf) else none

/-- The propagation pass over `estimator_folds`.  A task whose case id is in
`case_list` is skipped; otherwise the parent case is `parentCase`.  A
`None` case id not in `case_list` would hit `None.split` — an
`AttributeError`. -/
def propPass (caseList : List (Option Str)) :
    List ETask → IdxMap → Except Err IdxMap
  | [], idx => .ok idx
  | t :: rest, idx =>
    if t.cid ∈ caseList then propPass caseList rest idx
    else
      match t.cid with
      | none => .error (.attributeError "NoneType has no attribute split".data)
      | some cf =>
        match propInner cf (parentCase cf) t.insts idx with
        | .error e => .error e
        | .ok idx' => propPass caseList rest idx'

/-- `get_col_idx(preprocessing, estimators, estimator_folds)`: assign each
estimator in each case a unique column, then map every fold-variant entry
back onto it.  The branch on the shape of `preprocessing` mirrors
`isinstance(preprocessing, list) or preprocessing is None`; shape
mismatches between `preprocessing` and `estimators` surface as the Python
errors the source would raise (iterating a dict as pairs / indexing a list
with a string key). -/
def get_col_idx (prep : Option InstColl) (est : InstColl)
    (estimator_folds : List ETask) : Except Err IdxMap :=
  match prep with
  | none | some (.flat _) =>
    match est with
    | .flat l => propPass [none] estimator_folds (flatBase l 0 [])
    | .cases _ =>
      .error (.typeError "cannot unpack dict keys as name-instance pairs".data)
  | some (.cases pm) =>
    match est with
    | .cases em =>
      match baseOuter em (sortKeys pm) 0 [] with
      | .error e => .error e
      | .ok r => propPass ((sortKeys pm).map some) estimator_folds r.1
    | .flat _ =>
      .error (.typeError "list indices must be integers".data)

/-! ### Cache store -/

/-- A cached value: a fitted transformer list (`case__t` files) or a fitted
estimator bundle `(inst_name, est_or_None, (tei_or_None, col))`
(`case__inst__e` files). -/
inductive CacheVal where
  | trList (l : List (Str × Inst))
  | bundle (nm : Str) (est : Option Inst) (idx : Option Rng × Nat)

/-- The cache directory: file name → serialized content. -/
abbrev Cache := Str → Option CacheVal

/-- `pickle_save(value, f)`. -/
def pickle_save (c : Cache) (f : Str) (v : CacheVal) : Cache :=
  fun k => if k = f then some v else c k

/-- `'%s' % case` — Python renders `None` as the string `"None"`. -/
def caseStr : Option Str → Str
  | none => "None".data
  | some c => c

/-- The transformer cache file name `'%s__t' % case`. -/
def tKey (case : Option Str) : Str := caseStr case ++ sep ++ ['t']

/-- The estimator cache file name `'%s__%s__e' % (case, inst_name)`. -/
def eKey (case : Option Str) (inst_name : Str) : Str :=
  caseStr case ++ sep ++ inst_name ++ sep ++ ['e']

/-! ### Fault-policy helpers -/

/-- `_fit_tr`: fitting a transformer; any failure is escalated to
`FitFailedError` (no recovery path). -/
def _fit_tr (x : Dm) (y : List Int) (tr : Inst) (tr_name : Str)
    (case : Option Str) (layer_name : Option Str) : Except Err Inst :=
  match tr.fit x y with
  | .ok t => .ok t
  | .error e =>
    let s := _name layer_name case
    .error (.fitFailedError
      (s ++ "Fitting transformer [".data ++ tr_name ++
       "] failed. Details:\n".data ++ e))

/-- `_transform_tr`: transforming; any failure is escalated to
`FitFailedError`. -/
def _transform_tr (x : Dm) (tr : Inst) (tr_name : Str)
    (case : Option Str) (layer_name : Option Str) : Except Err Dm :=
  match tr.transform x with
  | .ok x' => .ok x'
  | .error e =>
    let s := _name layer_name case
    .error (.fitFailedError
      (s ++ "Transformation with transformer [".data ++ tr_name ++
       "] of type (".data ++ ") failed. Details:\n".data ++ e))

/-- `_fit_est`: fitting an estimator.  Under fail-fast the failure is a
`FitFailedError`; otherwise a `FitFailedWarning` is recorded and the
Python function falls through, implicitly returning `None`. -/
def _fit_est (x : Dm) (y : List Int) (est : Inst) (raise_on_exception : Bool)
    (inst_name : Str) (case : Option Str) (layer_name : Option Str)
    (ws : List Warn) : Except Err (Option Inst × List Warn) :=
  match est.fit x y with
  | .ok e => .ok (some e, ws)
  | .error ex =>
    let s := _name layer_name case
    if raise_on_exception then
      .error (.fitFailedError
        (s ++ "Could not fit estimator '".data ++ inst_name ++
         "'. Details:\n".data ++ ex))
    else
      .ok (none, ws ++ [.fitFailedWarning
        (s ++ "Could not fit estimator '".data ++ inst_name ++
         "'. Will drop from ensemble. Details:\n".data ++ ex)])

/-- `_predict_est`: predicting with a (possibly `None`) estimator.  Calling
`.predict` on `None` raises an `AttributeError`, caught by the same
`except Exception` handler.  Under fail-fast the failure is a
`FitFailedError`; otherwise a `FitFailedWarning` is recorded and `None`
is returned. -/
def _predict_est (x : Dm) (est : Option Inst) (raise_on_exception : Bool)
    (inst_name : Str) (case : Option Str) (layer_name : Option Str)
    (ws : List Warn) : Except Err (Option (List Int) × List Warn) :=
  let attempt : Except Str (List Int) :=
    match est with
    | none => .error "NoneType object has no attribute predict".data
    | some e => e.predict x
  match attempt with
  | .ok p => .ok (some p, ws)
  | .error ex =>
    let s := _name layer_name case
    if raise_on_exception then
      .error (.fitFailedError
        (s ++ "Could not predict with estimator '".data ++ inst_name ++
         "'. Details:\n".data ++ ex))
    else
      .ok (none, ws ++ [.fitFailedWarning
        (s ++ "Could not predict with estimator '".data ++ inst_name ++
         "'. Predictions will be0. Details:\n".data ++ ex)])

/-! ### `_load_trans` — the poll-and-wait cache read

Discrete-time model: `look t` is the cache entry visible `t` seconds after
the reader first tries the file; `sleep(s)` advances time by `s`; `lim` is
the per-window budget.  Note two source quirks modelled faithfully:
* under fail-fast the reader raises immediately, before any polling
  (`# Raise error immediately`);
* the raise sites evaluate `error_msg % msg`, a format string with three
  conversion specifiers applied to a single argument — Python raises
  `TypeError: not enough arguments for format string` there, so the
  intended `ParallelProcessingError` is never constructed. -/

/-- The `TypeError` text raised at both would-be
`ParallelProcessingError` sites. -/
def loadFormatErr : Str := "not enough arguments for format string".data

/-- The `ParallelProcessingWarning` emitted at the first window expiry. -/
def pollWarn (case : Option Str) (f : Str) (lim s : Nat) : Warn :=
  .parallelProcessingWarning
    ("Transformer ".data ++ caseStr case ++ " not found in cache (".data ++ f ++
     "). Will check every ".data ++ natChars s ++ ".0 seconds for ".data ++
     natChars lim ++ " seconds before aborting. ".data)

/-- The polling loop of `_load_trans`: state is (remaining fuel, current
time `t`, seconds `e` elapsed in the current window, the escalation flag,
accumulated warnings). -/
def loadLoop {α : Type} (look : Nat → Option α) (case : Option Str)
    (f : Str) (lim s : Nat) :
    Nat → Nat → Nat → Bool → List Warn → Except Err (α × List Warn)
  | 0, _, _, _, _ => .error .outOfFuel
  | fuel + 1, t, e, raise_on_exception, ws =>
    match look t with
    | some v => .ok (v, ws)
    | none =>
      if lim < e + s then
        if raise_on_exception then .error (.typeError loadFormatErr)
        else
          loadLoop look case f lim s fuel (t + s) 0 true
            (ws ++ [pollWarn case f lim s])
      else loadLoop look case f lim s fuel (t + s) (e + s) raise_on_exception ws

/-- `_load_trans(f, case, lim, s, raise_on_exception)`. -/
def _load_trans {α : Type} (look : Nat → Option α) (case : Option Str)
    (f : Str) (lim s : Nat) (raise_on_exception : Bool) (fuel : Nat)
    (ws : List Warn) : Except Err (α × List Warn) :=
  match look 0 with
  | some v => .ok (v, ws)
  | none =>
    if raise_on_exception then .error (.typeError loadFormatErr)
    else loadLoop look case f lim s fuel 0 0 false ws

/-! ### Prediction matrix -/

/-- A cell of the float prediction buffer: a number or NaN.  (numpy turns a
`None` assigned into a float buffer into NaN.) -/
inductive PVal where
  | val (z : Int)
  | nan
deriving DecidableEq

/-- The shared prediction matrix. -/
abbrev PredMat := Nat → Nat → PVal

/-- `pred[tei[0]:tei[1], col] = vals_or_None`: write a prediction vector (or
NaN-fill on `None`) into the rows `r.1 ≤ i < r.2` of column `col`. -/
def writeSlice (P : PredMat) (r : Rng) (col : Nat)
    (pv : Option (List Int)) : PredMat :=
  fun i j =>
    if r.1 ≤ i ∧ i < r.2 ∧ j = col then
      match pv with
      | some vs => PVal.val (vs.getD (i - r.1) 0)
      | none => PVal.nan
    else P i j

/-- `pred[:, col] = vals_or_None`: write a whole column. -/
def writeCol (P : PredMat) (col : Nat) (pv : Option (List Int)) : PredMat :=
  fun i j =>
    if j = col then
      match pv with
      | some vs => PVal.val (vs.getD i 0)
      | none => PVal.nan
    else P i j

/-! ### Fit tasks -/

/-- `X[a:b]` on a row-major matrix. -/
def sliceRows (X : Dm) (r : Rng) : Dm := (X.drop r.1).take (r.2 - r.1)

/-- `y[a:b]` on a vector. -/
def sliceVec (y : List Int) (r : Rng) : List Int := (y.drop r.1).take (r.2 - r.1)

/-- Sequential application of a fitted transformer list:
`for tr_name, tr in tr_list: x = _transform_tr(x, tr, ...)`. -/
def transformAll (case : Option Str) (layer_name : Option Str) :
    Dm → List (Str × Inst) → Except Err Dm
  | x, [] => .ok x
  | x, (tr_name, tr) :: rest =>
    match _transform_tr x tr tr_name case layer_name with
    | .error e => .error e
    | .ok x' => transformAll case layer_name x' rest

/-- The fit-and-chain loop body of `fit_trans`: fit each transformer and —
only when the list has more than one step — transform the input for the
next step, accumulating the fitted list `out`. -/
def fitTransLoop (case : Option Str) (layer_name : Option Str) (y : List Int)
    (many : Bool) :
    Dm → List (Str × Inst) → List (Str × Inst) → Except Err (List (Str × Inst))
  | _, [], out => .ok out
  | x, (tr_name, tr) :: rest, out =>
    match _fit_tr x y tr tr_name case layer_name with
    | .error e => .error e
    | .ok tr' =>
      if many then
        match _transform_tr x tr' tr_name case layer_name with
        | .error e => .error e
        | .ok x' => fitTransLoop case layer_name y many x' rest (out ++ [(tr_name, tr')])
      else fitTransLoop case layer_name y many x rest (out ++ [(tr_name, tr')])

/-- `fit_trans(dir, case, inst, X, y, idx, name)`: fit the transformer
chain on the task's train slice and persist the fitted list under
`case__t`.  (The sparse-matrix materialization branch is the identity in
this model.) -/
def fit_trans (cache : Cache) (case : Option Str) (inst : List (Str × Inst))
    (X : Dm) (y : List Int) (idx : Option Rng) (name : Option Str) :
    Except Err Cache :=
  match fitTransLoop case name
      (match idx with | some r => sliceVec y r | none => y)
      (1 < inst.length)
      (match idx with | some r => sliceRows X r | none => X) inst [] with
  | .error e => .error e
  | .ok out => .ok (pickle_save cache (tKey case) (.trList out))

/-- `fit_est(dir, case, inst_name, inst, X, y, pred, idx,
raise_on_exception, name, lim, sec)`: slice the train range, load the
case's transformer list with the poll-and-wait reader, transform, fit the
estimator, optionally predict the test slice into `pred`, and persist the
bundle under `case__inst_name__e`.  Returns the updated cache, the
(possibly updated) prediction buffer and the warning log. -/
def fit_est (cache : Cache) (case : Option Str) (inst_name : Str)
    (inst : Inst) (X : Dm) (y : List Int) (pred : Option PredMat)
    (idx : Option Rng × Option Rng × Nat) (raise_on_exception : Bool)
    (name : Option Str) (lim s fuel : Nat) (ws : List Warn) :
    Except Err (Cache × Option PredMat × List Warn) :=
  match idx with
  | (tri, tei, col) =>
    Except.bind (_load_trans (fun _ => cache (tKey case)) case (tKey case)
        lim s raise_on_exception fuel ws) (fun vw =>
      match vw with
      | (v, ws1) =>
        match v with
        | .bundle _ _ _ =>
          .error (.typeError "cannot unpack estimator bundle as transformer list".data)
        | .trList tr_list =>
          Except.bind (transformAll case name
              (match tri with | some r => sliceRows X r | none => X) tr_list)
            (fun x1 =>
          Except.bind (_fit_est x1
              (match tri with | some r => sliceVec y r | none => y)
              inst raise_on_exception inst_name case name ws1) (fun ew =>
            match ew with
            | (estOpt, ws2) =>
              match tei with
              | some r =>
                Except.bind (transformAll case name (sliceRows X r) tr_list)
                  (fun xt1 =>
                Except.bind (_predict_est xt1 estOpt raise_on_exception
                    inst_name case name ws2) (fun pw =>
                  match pw with
                  | (pv, ws3) =>
                    match pred with
                    | none =>
                      .error (.typeError "NoneType object is not subscriptable".data)
                    | some P =>
                      .ok (pickle_save cache (eKey case inst_name)
                            (.bundle inst_name estOpt (some r, col)),
                           some (writeSlice P r col pv), ws3)))
              | none =>
                .ok (pickle_save cache (eKey case inst_name)
                      (.bundle inst_name estOpt (none, col)),
                     pred, ws2))))

/-! ### The combined-mode dispatcher `_fit` -/

/-- The dynamically-typed `inst` argument of `_fit`: either a wrapped
transformer list (from `_wrap`) or a single estimator object. -/
inductive FitArg where
  | trlist (l : List (Str × Inst))
  | est (e : Inst)

/-- The dynamically-typed `idx` argument of `_fit`: `tri` alone for wrapped
transformer tasks, the `(tri, tei, col)` triple for estimator tasks. -/
inductive IdxArg where
  | single (tri : Option Rng)
  | triple (t : Option Rng × Option Rng × Nat)

/-- `_fit(**kwargs)`: select `fit_trans` or `fit_est` on
`kwargs['inst_name'] == '__trans__'` and forward the matching keyword
subset.  Shape mismatches surface as the Python `TypeError`s the source
would raise (iterating a non-iterable estimator in `fit_trans`'s loop,
or unpacking the wrong `idx` shape). -/
def _fit (cache : Cache) (case : Option Str) (inst_name : Str) (inst : FitArg)
    (X : Dm) (y : List Int) (pred : Option PredMat) (idx : IdxArg)
    (raise_on_exception : Bool) (name : Option Str) (lim s fuel : Nat)
    (ws : List Warn) : Except Err (Cache × Option PredMat × List Warn) :=
  if inst_name = transName then
    match inst, idx with
    | .trlist l, .single tri =>
      match fit_trans cache case l X y tri name with
      | .error e => .error e
      | .ok c' => .ok (c', pred, ws)
    | .est _, .single _ =>
      .error (.typeError "Inst object is not iterable".data)
    | .est _, .triple _ =>
      .error (.typeError "Inst object is not iterable".data)
    | .trlist _, .triple _ =>
      .error (.typeError "slice indices must be integers".data)
  else
    match inst, idx with
    | .est e, .triple t => fit_est cache case inst_name e X y pred t
        raise_on_exception name lim s fuel ws
    | .trlist _, .single _ =>
      .error (.typeError "list object has no attribute fit".data)
    | .trlist _, .triple _ =>
      .error (.typeError "list object has no attribute fit".data)
    | .est _, .single _ =>
      .error (.typeError "cannot unpack two-element index".data)

/-! ### The fit driver -/

/-- The layer configuration consumed by `fit` (verbosity/printing is a
no-op in this model and omitted; `indexer.split(X)` is modelled by the
emitted fold list). -/
structure Layer where
  estimators : InstColl
  preprocessing : InstColl
  indexer : Option (List (List Nat × List Nat))
  raise_on_exception : Bool

/-- Stage 1 of the dual-mode `fit`: one `fit_trans` unit per preprocessing
task.  The parallel engine is modelled as sequential execution that
propagates the first unrecovered error. -/
def stage1 (X : Dm) (y : List Int) (name : Option Str) :
    List ETask → Cache → Except Err Cache
  | [], c => .ok c
  | t :: rest, c =>
    Except.bind (fit_trans c t.cid t.insts X y t.tri name) (fun c' =>
      stage1 X y name rest c')

/-- The per-task inner loop of stage 2: one `fit_est` unit per
`(task, instance)` pair, with `pred=P if tei is not None else None` and
`idx=(tri, tei, cm[case, inst_name])` (a missing column-map key is a
`KeyError`). -/
def stage2Inner (X : Dm) (y : List Int) (cm : IdxMap) (name : Option Str)
    (raise_on_exception : Bool) (lim s fuel : Nat)
    (cid : Option Str) (tri tei : Option Rng) :
    List (Str × Inst) → Cache → PredMat → List Warn →
    Except Err (Cache × PredMat × List Warn)
  | [], c, P, ws => .ok (c, P, ws)
  | (inst_name, inst) :: rest, c, P, ws =>
    (dlookup cm (cid, inst_name)).elim (.error (.keyError inst_name)) (fun col =>
      Except.bind (fit_est c cid inst_name inst X y
          (if tei.isSome then some P else none) (tri, tei, col)
          raise_on_exception name lim s fuel ws) (fun t =>
        match t with
        | (c', P', ws') =>
          stage2Inner X y cm name raise_on_exception lim s fuel cid tri tei
            rest c' (P'.getD P) ws'))

/-- Stage 2 of the dual-mode `fit` over the estimator task list. -/
def stage2 (X : Dm) (y : List Int) (cm : IdxMap) (name : Option Str)
    (raise_on_exception : Bool) (lim s fuel : Nat) :
    List ETask → Cache → PredMat → List Warn →
    Except Err (Cache × PredMat × List Warn)
  | [], c, P, ws => .ok (c, P, ws)
  | t :: rest, c, P, ws =>
    Except.bind (stage2Inner X y cm name raise_on_exception lim s fuel
        t.cid t.tri t.tei t.insts c P ws) (fun u =>
      match u with
      | (c', P', ws') =>
        stage2 X y cm name raise_on_exception lim s fuel rest c' P' ws')

/-- `_assemble(dir, instance_list, suffix)`: load the fitted artifacts back
from the cache (`case__t` per task for transformers, `case__inst__e` per
task-and-instance for estimators); a missing file is a
`FileNotFoundError`. -/
def _assemble (cache : Cache) (instance_list : List ETask) (suffix : Char) :
    Except Err (List (Option Str × CacheVal)) :=
  if suffix = 't' then
    instance_list.mapM (fun t =>
      match cache (tKey t.cid) with
      | none => .error (.fileNotFoundError (tKey t.cid))
      | some v => .ok (t.cid, v))
  else
    (instance_list.flatMap (fun t => t.insts.map (fun p => (t.cid, p.1)))).mapM
      (fun q =>
        match cache (eKey q.1 q.2) with
        | none => .error (.fileNotFoundError (eKey q.1 q.2))
        | some v => .ok (q.1, v))

/-- `fit(layer, X, y, P, dir, parallel, name, lim, sec)` — the dual-mode
(`__DUAL__ = True`) fit driver: expand tasks, build the column map, run the
two stages, reassemble.  The returned tuple carries the assembled estimator
and transformer lists (the source's return value, whose third slot is
`None`) together with the final prediction matrix, cache and warning log
(the source's side effects). -/
def fit (layer : Layer) (X : Dm) (y : List Int) (P : PredMat) (cache : Cache)
    (name : Option Str) (lim s fuel : Nat) :
    Except Err (List (Option Str × CacheVal) × List (Option Str × CacheVal) ×
      PredMat × Cache × List Warn) :=
  Except.bind (get_col_idx (some layer.preprocessing) layer.estimators
      (expand_instance_list layer.estimators layer.indexer)) (fun cm =>
  Except.bind (stage1 X y name
      (expand_instance_list layer.preprocessing layer.indexer) cache) (fun cache1 =>
  Except.bind (stage2 X y cm name layer.raise_on_exception lim s fuel
      (expand_instance_list layer.estimators layer.indexer) cache1 P []) (fun u =>
    match u with
    | (cache2, P', ws) =>
      Except.bind (_assemble cache2
          (expand_instance_list layer.preprocessing layer.indexer) 't') (fun transL =>
      Except.bind (_assemble cache2
          (expand_instance_list layer.estimators layer.indexer) 'e') (fun ests =>
        .ok (ests, transL, P', cache2, ws))))))

/-! ### The predict driver -/

/-- `_strip(cases, fitted_estimators)`: keep artifacts of full-data cases. -/
def _strip {α : Type} (cases : List (Option Str))
    (fitted : List (Option Str × α)) : List (Option Str × α) :=
  fitted.filter (fun tup => tup.1 ∈ cases)

/-- `_predict(case, tr_list, inst_name, est, xtest, pred, col, ...)`: apply
the case's transformer chain to the full input, predict, and write the
whole column `col` of `pred`. -/
def _predict (case : Option Str) (tr_list : List (Str × Inst))
    (inst_name : Str) (est : Option Inst) (xtest : Dm) (pred : PredMat)
    (col : Nat) (raise_on_exception : Bool) (layer_name : Option Str)
    (ws : List Warn) : Except Err (PredMat × List Warn) :=
  match transformAll case layer_name xtest tr_list with
  | .error e => .error e
  | .ok x1 =>
    match _predict_est x1 est raise_on_exception inst_name case layer_name ws with
    | .error e => .error e
    | .ok (pv, ws') => .ok (writeCol pred col pv, ws')

/-! ## Concrete instances used by counterexamples and witnesses -/

/-- A fitted inert object: transform is the identity, predict succeeds. -/
def fittedOk : Inst := .mk (fun _ _ => .error []) (fun x => .ok x) (fun _ => .ok [3, 4])

/-- An estimator whose `fit` succeeds (returning `fittedOk`). -/
def okEst : Inst := .mk (fun _ _ => .ok fittedOk) (fun x => .ok x) (fun _ => .error [])

/-- An estimator whose `fit` raises. -/
def failFitEst : Inst :=
  .mk (fun _ _ => .error "boom".data) (fun x => .ok x) (fun _ => .ok [])

/-- A fitted object whose `predict` raises. -/
def fittedBadPredict : Inst :=
  .mk (fun _ _ => .error []) (fun x => .ok x) (fun _ => .error "pboom".data)

/-- An estimator whose `fit` succeeds but whose fitted result cannot predict. -/
def badPredictEst : Inst :=
  .mk (fun _ _ => .ok fittedBadPredict) (fun x => .ok x) (fun _ => .ok [])

/-- A transformer whose `fit` raises. -/
def failTrans : Inst :=
  .mk (fun _ _ => .error "tboom".data) (fun x => .ok x) (fun _ => .ok [])

/-- An object whose `transform` raises. -/
def failTransform : Inst :=
  .mk (fun _ _ => .error []) (fun _ => .error "xboom".data) (fun _ => .ok [])

/-- The empty cache directory. -/
def emptyCache : Cache := fun _ => none

/-- An all-zeros prediction matrix (the caller's freshly allocated buffer). -/
def zeroMat : PredMat := fun _ _ => .val 0

/-- A one-estimator flat layer with no fold generator (only the full-data
task, whose test range is `None`). -/
def c9Layer : Layer :=
  { estimators := .flat [("e".data, okEst)]
    preprocessing := .flat []
    indexer := none
    raise_on_exception := false }

/-! ## C6 — task counts of the Fold Expander -/

theorem length_flatMap_const {α β : Type} (l : List α) (f : α → List β) (k : Nat)
    (h : ∀ a ∈ l, (f a).length = k) : (l.flatMap f).length = l.length * k := by
  induction l with
  | nil => simp
  | cons a t ih =>
    simp only [List.flatMap_cons, List.length_append, List.length_cons]
    rw [h a (by simp), ih (fun x hx => h x (by simp [hx]))]
    ring

/-- **C6, counterexample to the claim as stated.**  An unpartitioned flat
list with a 3-fold generator yields 4 tasks (1 full-data + 3 folds), not
the 3 tasks the claim asserts for the flat case. -/
theorem C6_counterexample :
    (expand_instance_list (.flat [("e".data, fittedOk)])
      (some [([0],[1]), ([1],[2]), ([2],[0])])).length = 4 ∧
    ¬ (expand_instance_list (.flat [("e".data, fittedOk)])
      (some [([0],[1]), ([1],[2]), ([2],[0])])).length = 3 := by
  constructor
  · rfl
  · intro h
    rw [show (expand_instance_list (.flat [("e".data, fittedOk)])
      (some [([0],[1]), ([1],[2]), ([2],[0])])).length = 4 from rfl] at h
    exact absurd h (by decide)

/-- **C6 (amended).**  For a case-partitioned collection over `m` cases and a
fold generator emitting `k` folds, `expand_instance_list` emits exactly `m`
full-data tasks (ranges `None`, case ids in sorted order) followed by `m*k`
fold tasks (all with ranges present); an unpartitioned flat list yields
`1 + k` tasks (one full-data task plus `k` fold tasks, not `k` as claimed);
with no fold generator only the full-data task(s) are produced. -/
theorem C6_theorem (em : List (Str × List (Str × Inst))) (l : List (Str × Inst))
    (ks : List (List Nat × List Nat)) :
    ((expand_instance_list (.cases em) (some ks)).length
        = em.length + em.length * ks.length
      ∧ ((expand_instance_list (.cases em) (some ks)).take em.length).map
          (fun t => (t.cid, t.tri, t.tei))
        = (sortKeys em).map (fun c => (some c, none, none))
      ∧ ∀ t ∈ (expand_instance_list (.cases em) (some ks)).drop em.length,
          t.tri.isSome ∧ t.tei.isSome)
    ∧ (expand_instance_list (.flat l) (some ks)).length = 1 + ks.length
    ∧ ((expand_instance_list (.cases em) none).map (fun t => (t.cid, t.tri, t.tei))
        = (sortKeys em).map (fun c => (some c, none, none))
      ∧ (expand_instance_list (.flat l) none).map (fun t => (t.cid, t.tri, t.tei))
        = [(none, none, none)]) := by
  have hfull : ((sortKeys em).map (fun c => (⟨some c, none, none,
      ((dlookup em c).getD []).map (fun p => (p.1, clone p.2))⟩ : ETask))).length
      = em.length := by
    rw [List.length_map, length_sortKeys]
  refine ⟨⟨?_, ?_, ?_⟩, ?_, ?_, ?_⟩
  · simp only [expand_instance_list, List.length_append]
    rw [hfull]
    congr 1
    rw [length_flatMap_const _ _ ks.length
      (fun c _ => by rw [List.length_map, List.enum_length])]
    rw [length_sortKeys]
  · simp only [expand_instance_list]
    rw [List.take_append_of_le_length (by rw [hfull]),
      List.take_of_length_le (by rw [hfull]), List.map_map]
    rfl
  · intro t ht
    simp only [expand_instance_list] at ht
    rw [List.drop_append_of_le_length (by rw [hfull]),
      List.drop_of_length_le (by rw [hfull]), List.nil_append] at ht
    rcases List.mem_flatMap.mp ht with ⟨c, _, hmem⟩
    rcases List.mem_map.mp hmem with ⟨q, _, rfl⟩
    exact ⟨rfl, rfl⟩
  · simp only [expand_instance_list, List.length_append, List.length_map,
      List.enum_length, List.length_cons, List.length_nil]
  · simp only [expand_instance_list, List.append_nil, List.map_map]
    rfl
  · simp only [expand_instance_list, List.append_nil, List.map_cons,
      List.map_nil]

/-! ## C7 — transformer fit/transform failures are always fatal -/

/-- The `_name` prefix contains the case (when present) as a segment. -/
theorem name_case_seg (layer_name : Option Str) {case : Option Str} (c : Str)
    (h : case = some c) (r : Str) :
    ∃ a b, _name layer_name case ++ r = a ++ c ++ b := by
  subst h
  cases layer_name with
  | none =>
    exact ⟨['['], "] ".data ++ r, by simp [_name]⟩
  | some ln =>
    exact ⟨['['] ++ ln ++ " | ".data, " ] ".data ++ r, by simp [_name]⟩

/-- The `_name` prefix contains the layer name (when present) as a segment. -/
theorem name_layer_seg {layer_name : Option Str} (case : Option Str) (ln : Str)
    (h : layer_name = some ln) (r : Str) :
    ∃ a b, _name layer_name case ++ r = a ++ ln ++ b := by
  subst h
  cases case with
  | none =>
    exact ⟨['['], "] ".data ++ r, by simp [_name]⟩
  | some c =>
    exact ⟨['['], " | ".data ++ c ++ " ] ".data ++ r, by simp [_name]⟩

/-- **C7.**  `_fit_tr` and `_transform_tr` take no fail-fast flag: any
exception raised by a transformer's `fit` or `transform` escalates,
regardless of configuration, to a hard `FitFailedError` whose message
contains the layer name (when set), the case (when set) and the
transformer name. -/
theorem C7_theorem (x : Dm) (y : List Int) (tr : Inst) (tr_name : Str)
    (case layer_name : Option Str) :
    (∀ d, tr.fit x y = .error d →
      ∃ m, _fit_tr x y tr tr_name case layer_name = .error (.fitFailedError m)
        ∧ (∃ a b, m = a ++ tr_name ++ b)
        ∧ (∀ c, case = some c → ∃ a b, m = a ++ c ++ b)
        ∧ (∀ ln, layer_name = some ln → ∃ a b, m = a ++ ln ++ b))
    ∧ (∀ d, tr.transform x = .error d →
      ∃ m, _transform_tr x tr tr_name case layer_name = .error (.fitFailedError m)
        ∧ (∃ a b, m = a ++ tr_name ++ b)
        ∧ (∀ c, case = some c → ∃ a b, m = a ++ c ++ b)
        ∧ (∀ ln, layer_name = some ln → ∃ a b, m = a ++ ln ++ b)) := by
  constructor
  · intro d hd
    refine ⟨_, by rw [_fit_tr, hd], ?_, ?_, ?_⟩
    · exact ⟨_name layer_name case ++ "Fitting transformer [".data,
        "] failed. Details:\n".data ++ d, by simp⟩
    · intro c hc
      obtain ⟨a, b, hab⟩ := name_case_seg layer_name c hc
        ("Fitting transformer [".data ++ tr_name ++ "] failed. Details:\n".data ++ d)
      exact ⟨a, b, by rw [← hab]; simp [List.append_assoc]⟩
    · intro ln hln
      obtain ⟨a, b, hab⟩ := name_layer_seg case ln hln
        ("Fitting transformer [".data ++ tr_name ++ "] failed. Details:\n".data ++ d)
      exact ⟨a, b, by rw [← hab]; simp [List.append_assoc]⟩
  · intro d hd
    refine ⟨_, by rw [_transform_tr, hd], ?_, ?_, ?_⟩
    · exact ⟨_name layer_name case ++ "Transformation with transformer [".data,
        "] of type (".data ++ ") failed. Details:\n".data ++ d, by simp⟩
    · intro c hc
      obtain ⟨a, b, hab⟩ := name_case_seg layer_name c hc
        ("Transformation with transformer [".data ++ tr_name ++
         "] of type (".data ++ ") failed. Details:\n".data ++ d)
      exact ⟨a, b, by rw [← hab]; simp [List.append_assoc]⟩
    · intro ln hln
      obtain ⟨a, b, hab⟩ := name_layer_seg case ln hln
        ("Transformation with transformer [".data ++ tr_name ++
         "] of type (".data ++ ") failed. Details:\n".data ++ d)
      exact ⟨a, b, by rw [← hab]; simp [List.append_assoc]⟩

/-- **C7, witness.**  Scenario C shape: a transformer raising on case `"b"`
aborts with a hard `FitFailedError` whose message references case `"b"`. -/
theorem C7_witness :
    ∃ m, _fit_tr [] [] failTrans "t1".data (some "b".data) none
        = .error (.fitFailedError m)
      ∧ (∃ a b, m = a ++ "b".data ++ b) := by
  obtain ⟨m, hm, _, hcase, _⟩ :=
    (C7_theorem [] [] failTrans "t1".data (some "b".data) none).1 "tboom".data rfl
  exact ⟨m, hm, hcase "b".data rfl⟩

/-! ## C8 — save/load round-trip through the cache store -/

/-- **C8.**  Any transformer list persisted by `fit_trans` under its case
key is returned unchanged by a subsequent `_load_trans` when the entry is
already present, with no error raised and no warning emitted, under either
fail-fast policy and any interval/timeout configuration. -/
theorem C8_theorem (cache : Cache) (case : Option Str) (inst : List (Str × Inst))
    (X : Dm) (y : List Int) (idx : Option Rng) (name : Option Str)
    (cache' : Cache) (lim s fuel : Nat) (raise_on_exception : Bool)
    (ws : List Warn)
    (h : fit_trans cache case inst X y idx name = .ok cache') :
    ∃ out, cache' (tKey case) = some (.trList out)
      ∧ _load_trans (fun _ => cache' (tKey case)) case (tKey case) lim s
          raise_on_exception fuel ws
        = .ok (.trList out, ws) := by
  rw [fit_trans.eq_def] at h
  revert h
  cases hloop : fitTransLoop case name
      (match idx with | some r => sliceVec y r | none => y)
      (1 < inst.length)
      (match idx with | some r => sliceRows X r | none => X) inst [] with
  | error e => intro h; cases h
  | ok out =>
    intro h
    have hc : cache' = pickle_save cache (tKey case) (.trList out) := by
      cases h; rfl
    subst hc
    have hk : pickle_save cache (tKey case) (.trList out) (tKey case)
        = some (.trList out) := by
      simp [pickle_save]
    exact ⟨out, hk, by rw [_load_trans, hk]⟩

/-- **C8, witness** at a concrete configuration (empty transformer chain,
entry present). -/
theorem C8_witness :
    ∃ out, (pickle_save emptyCache (tKey none) (.trList [])) (tKey none)
        = some (.trList out)
      ∧ _load_trans (fun _ => (pickle_save emptyCache (tKey none) (.trList []))
            (tKey none)) none (tKey none) 5 1 true 10 []
        = .ok (.trList out, []) :=
  C8_theorem emptyCache none [] [] [] none none _ 5 1 10 true [] rfl

/-! ## C10 — the combined-mode dispatcher `_fit` -/

/-- A cache key is an estimator-bundle key iff it ends in `'e'`; the
transformer key of any case ends in `'t'`, so they always differ. -/
theorem tKey_ne_eKey (case case' : Option Str) (inm : Str) :
    tKey case ≠ eKey case' inm := by
  intro h
  have := congrArg List.getLast? h
  rw [tKey, eKey] at this
  rw [show caseStr case ++ sep ++ ['t'] = (caseStr case ++ sep) ++ ['t'] by
        simp [List.append_assoc],
      show caseStr case' ++ sep ++ inm ++ sep ++ ['e']
          = (caseStr case' ++ sep ++ inm ++ sep) ++ ['e'] by
        simp [List.append_assoc]] at this
  rw [List.getLast?_concat, List.getLast?_concat] at this
  exact absurd this (by decide)

/-- **C10.**  In combined (non-dual) submission mode, `_fit` routes a work
unit to the transformer-fit path iff its `inst_name` equals the reserved
`'__trans__'` (the name `_wrap` assigns): (i) wrapped transformer lists
named `'__trans__'` run `fit_trans`; (ii) an estimator literally named
`'__trans__'` is also routed to `fit_trans`, where iterating the
non-iterable object raises — it is never fitted; (iii) any other name runs
`fit_est`; (iv)–(v) `fit_trans` touches no cache key other than the
case's transformer key, which is never an estimator-bundle key, so a unit
routed to the transformer path never caches an estimator bundle. -/
theorem C10_theorem (cache : Cache) (case : Option Str) (inst_name : Str)
    (X : Dm) (y : List Int) (pred : Option PredMat)
    (raise_on_exception : Bool) (name : Option Str) (lim s fuel : Nat)
    (ws : List Warn) :
    (∀ l tri, inst_name = transName →
      _fit cache case inst_name (.trlist l) X y pred (.single tri)
          raise_on_exception name lim s fuel ws
        = match fit_trans cache case l X y tri name with
          | .error e => .error e
          | .ok c' => .ok (c', pred, ws))
    ∧ (∀ e idx, inst_name = transName →
      _fit cache case inst_name (.est e) X y pred idx
          raise_on_exception name lim s fuel ws
        = .error (.typeError "Inst object is not iterable".data))
    ∧ (∀ e t, inst_name ≠ transName →
      _fit cache case inst_name (.est e) X y pred (.triple t)
          raise_on_exception name lim s fuel ws
        = fit_est cache case inst_name e X y pred t
            raise_on_exception name lim s fuel ws)
    ∧ (∀ l tri c', fit_trans cache case l X y tri name = .ok c' →
        ∀ k, k ≠ tKey case → c' k = cache k)
    ∧ (∀ case' inm, tKey case ≠ eKey case' inm) := by
  refine ⟨?_, ?_, ?_, ?_, tKey_ne_eKey case⟩
  · intro l tri h
    rw [_fit.eq_def, if_pos h]
  · intro e idx h
    rw [_fit.eq_def, if_pos h]
    cases idx <;> rfl
  · intro e t h
    rw [_fit.eq_def, if_neg h]
  · intro l tri c' h k hk
    rw [fit_trans.eq_def] at h
    revert h
    cases hloop : fitTransLoop case name
        (match tri with | some r => sliceVec y r | none => y)
        (1 < l.length)
        (match tri with | some r => sliceRows X r | none => X) l [] with
    | error e => intro h; cases h
    | ok out =>
      intro h
      cases h
      simp [pickle_save, hk]

/-- **C10, witness.**  A concrete estimator named `'__trans__'` is
dispatched to the transformer path and raises there without being fitted
or cached. -/
theorem C10_witness :
    _fit emptyCache none transName (.est okEst) [] [] none (.single none)
        false none 5 1 10 []
      = .error (.typeError "Inst object is not iterable".data) :=
  (C10_theorem emptyCache none transName [] [] none false none 5 1 10 []).2.1
    okEst (.single none) rfl

/-! ## C3 — the poll-and-wait protocol of `_load_trans` -/

/-- A monotone cache arrival: the entry becomes visible at second `A` and
stays visible (the cache store is write-once). -/
def arrLook {α : Type} (A : Nat) (v : α) : Nat → Option α :=
  fun t => if A ≤ t then some v else none

/-- Definitional unfolding of `loadLoop` at positive fuel. -/
theorem loadLoop_succ {α : Type} (look : Nat → Option α) (case : Option Str)
    (f : Str) (lim s fuel t e : Nat) (raiseB : Bool) (ws : List Warn) :
    loadLoop look case f lim s (fuel + 1) t e raiseB ws
      = match look t with
        | some v => .ok (v, ws)
        | none =>
          if lim < e + s then
            if raiseB then .error (.typeError loadFormatErr)
            else loadLoop look case f lim s fuel (t + s) 0 true
              (ws ++ [pollWarn case f lim s])
          else loadLoop look case f lim s fuel (t + s) (e + s) raiseB ws := rfl

/-- Behaviour of the loop once escalation is armed: it still polls at
`t, t+s, …` until the window budget is spent, then raises. -/
theorem loadLoop_raise {α : Type} (A : Nat) (v : α) (case : Option Str)
    (f : Str) (lim s : Nat) (hs : 1 ≤ s) :
    ∀ fuel t e ws, e ≤ lim → (lim - e) / s + 2 ≤ fuel →
    loadLoop (arrLook A v) case f lim s fuel t e true ws
      = if A ≤ t + ((lim - e) / s) * s then .ok (v, ws)
        else .error (.typeError loadFormatErr) := by
  intro fuel
  induction fuel with
  | zero =>
    intro t e ws he hf
    exact absurd hf (Nat.not_succ_le_zero _)
  | succ n ih =>
    intro t e ws he hf
    rw [loadLoop_succ]
    by_cases hAt : A ≤ t
    · rw [show arrLook A v t = some v from if_pos hAt,
        if_pos (le_trans hAt (Nat.le_add_right _ _))]
    · rw [show arrLook A v t = none from if_neg hAt]
      by_cases htm : lim < e + s
      · rw [if_pos htm, if_pos rfl]
        have hJ : (lim - e) / s = 0 := Nat.div_eq_of_lt (by omega)
        rw [hJ]
        simp only [Nat.zero_mul, Nat.add_zero]
        rw [if_neg hAt]
      · rw [if_neg htm]
        push_neg at htm
        have hsub : lim - e - s = lim - (e + s) := by omega
        have hstep : (lim - e) / s = (lim - (e + s)) / s + 1 := by
          rw [Nat.div_eq_sub_div (by omega) (by omega), hsub]
        rw [ih (t + s) (e + s) ws (by omega) (by omega)]
        have harith : t + s + (lim - (e + s)) / s * s
            = t + (lim - e) / s * s := by
          rw [hstep, Nat.succ_mul]
          omega
        rw [harith]

/-- Behaviour of the loop in its first (un-escalated) window: poll the
first window; at its expiry warn once, reset the deadline, and continue in
escalated mode. -/
theorem loadLoop_norise {α : Type} (A : Nat) (v : α) (case : Option Str)
    (f : Str) (lim s : Nat) (hs : 1 ≤ s) :
    ∀ fuel t e ws, e ≤ lim → (lim - e) / s + lim / s + 4 ≤ fuel →
    loadLoop (arrLook A v) case f lim s fuel t e false ws
      = if A ≤ t + ((lim - e) / s) * s then .ok (v, ws)
        else if A ≤ t + ((lim - e) / s) * s + s + (lim / s) * s then
          .ok (v, ws ++ [pollWarn case f lim s])
        else .error (.typeError loadFormatErr) := by
  intro fuel
  induction fuel with
  | zero =>
    intro t e ws he hf
    exact absurd hf (Nat.not_succ_le_zero _)
  | succ n ih =>
    intro t e ws he hf
    rw [loadLoop_succ]
    by_cases hAt : A ≤ t
    · rw [show arrLook A v t = some v from if_pos hAt,
        if_pos (le_trans hAt (Nat.le_add_right _ _))]
    · rw [show arrLook A v t = none from if_neg hAt]
      by_cases htm : lim < e + s
      · rw [if_pos htm, if_neg (by decide)]
        have hJ : (lim - e) / s = 0 := Nat.div_eq_of_lt (by omega)
        rw [loadLoop_raise A v case f lim s hs n (t + s) 0
          (ws ++ [pollWarn case f lim s]) (by omega)
          (by simp only [Nat.sub_zero]; omega)]
        rw [hJ]
        simp only [Nat.zero_mul, Nat.add_zero, Nat.sub_zero]
        rw [if_neg hAt]
      · rw [if_neg htm]
        push_neg at htm
        have hsub : lim - e - s = lim - (e + s) := by omega
        have hstep : (lim - e) / s = (lim - (e + s)) / s + 1 := by
          rw [Nat.div_eq_sub_div (by omega) (by omega), hsub]
        rw [ih (t + s) (e + s) ws (by omega) (by omega)]
        have harith : t + s + (lim - (e + s)) / s * s
            = t + (lim - e) / s * s := by
          rw [hstep, Nat.succ_mul]
          omega
        rw [harith]

/-- Definitional unfolding of `_load_trans`. -/
theorem load_trans_eq {α : Type} (look : Nat → Option α) (case : Option Str)
    (f : Str) (lim s : Nat) (raiseB : Bool) (fuel : Nat) (ws : List Warn) :
    _load_trans look case f lim s raiseB fuel ws
      = match look 0 with
        | some v => .ok (v, ws)
        | none =>
          if raiseB then .error (.typeError loadFormatErr)
          else loadLoop look case f lim s fuel 0 0 false ws := rfl

/-- **C3, counterexample to the claim as stated.**  With fail-fast active
and the cache entry arriving 3 seconds in — well inside the first
10-second window — the claim predicts a successful load with no error; the
code instead aborts immediately on the first miss, without polling, and the
hard error it raises is a `TypeError` (the `error_msg % msg` at the raise
site applies a three-specifier format string to one argument), not the
intended `ParallelProcessingError`. -/
theorem C3_counterexample :
    _load_trans (arrLook 3 (0 : Nat)) none [] 10 1 true 100 []
      = .error (.typeError loadFormatErr)
    ∧ ∀ w, _load_trans (arrLook 3 (0 : Nat)) none [] 10 1 true 100 [] ≠ .ok (0, w) := by
  refine ⟨rfl, ?_⟩
  intro w h
  rw [show _load_trans (arrLook 3 (0 : Nat)) none [] 10 1 true 100 []
    = .error (.typeError loadFormatErr) from rfl] at h
  cases h

/-- **C3 (amended).**  For a cache entry that becomes visible at second `A`
(`A = 0`: already present), interval `s ≥ 1`, window budget `lim`, and
sufficient fuel: (i) an initially-present entry loads at once with no
warning under either policy; (ii) under fail-fast any initial miss aborts
immediately — before any polling — with a hard error (a `TypeError` from
the malformed message-formatting at the raise site; the intended
`ParallelProcessingError` is never constructed); (iii) with fail-fast off
the reader polls every `s` seconds and succeeds silently if the entry
appears by the last poll of the first window; (iv) at the first window
expiry it emits exactly one `ParallelProcessingWarning`, extends the
deadline exactly once, and still succeeds if the entry appears within the
second window; (v) if the second window also expires it escalates to the
hard (`TypeError`) error. -/
theorem C3_theorem {α : Type} (A : Nat) (v : α) (case : Option Str) (f : Str)
    (lim s fuel : Nat) (ws : List Warn) (hs : 1 ≤ s)
    (hfuel : lim / s + lim / s + 4 ≤ fuel) :
    (A = 0 → ∀ raiseB, _load_trans (arrLook A v) case f lim s raiseB fuel ws
        = .ok (v, ws))
    ∧ (1 ≤ A → _load_trans (arrLook A v) case f lim s true fuel ws
        = .error (.typeError loadFormatErr))
    ∧ (1 ≤ A → A ≤ (lim / s) * s →
        _load_trans (arrLook A v) case f lim s false fuel ws = .ok (v, ws))
    ∧ ((lim / s) * s < A → A ≤ 2 * ((lim / s) * s) + s →
        _load_trans (arrLook A v) case f lim s false fuel ws
          = .ok (v, ws ++ [pollWarn case f lim s]))
    ∧ (2 * ((lim / s) * s) + s < A →
        _load_trans (arrLook A v) case f lim s false fuel ws
          = .error (.typeError loadFormatErr)) := by
  have hloop : ∀ hA : ¬ A ≤ 0,
      _load_trans (arrLook A v) case f lim s false fuel ws
        = if A ≤ (lim / s) * s then .ok (v, ws)
          else if A ≤ (lim / s) * s + s + (lim / s) * s then
            .ok (v, ws ++ [pollWarn case f lim s])
          else .error (.typeError loadFormatErr) := by
    intro hA
    rw [load_trans_eq, show arrLook A v 0 = none from if_neg hA,
      if_neg (by decide)]
    rw [loadLoop_norise A v case f lim s hs fuel 0 0 ws (by omega) (by simpa using hfuel)]
    simp only [Nat.sub_zero, Nat.zero_add]
  refine ⟨?_, ?_, ?_, ?_, ?_⟩
  · intro hA raiseB
    subst hA
    rw [load_trans_eq, show arrLook 0 v 0 = some v from if_pos (le_refl 0)]
  · intro hA
    rw [load_trans_eq, show arrLook A v 0 = none from if_neg (by omega),
      if_pos rfl]
  · intro hA1 hA2
    rw [hloop (by omega), if_pos hA2]
  · intro hA1 hA2
    rw [hloop (by omega), if_neg (by omega), if_pos (by omega)]
  · intro hA1
    rw [hloop (by omega), if_neg (by omega), if_neg (by omega)]

/-- **C3, witness.**  Entry arriving at second 15 with a 10-second window
and 1-second interval, fail-fast off: success after exactly one warning
(deadline extended once). -/
theorem C3_witness :
    _load_trans (arrLook 15 (0 : Nat)) none [] 10 1 false 30 []
      = .ok (0, [pollWarn none [] 10 1]) :=
  (C3_theorem 15 0 none [] 10 1 30 [] (by decide) (by decide)).2.2.2.1
    (by decide) (by decide)

/-! ## C4 — estimator fit failure with fail-fast off

The layer below has one estimator `"e"` whose `fit` raises, an empty flat
preprocessing list, one fold (`tri = [0]`, `tei = [1]`) and
`raise_on_exception = False`.  The claim predicts: warning recorded (true),
bundle absent from the returned fitted list (false — `fit_est`
unconditionally persists `(inst_name, None, idx)` and `_assemble` returns
it), and the estimator's prediction column untouched (false — the `None`
returned by the failed predict is assigned into `pred[1:2, 0]`, which
numpy stores as NaN). -/

/-- The C4 failing layer configuration. -/
def c4Layer : Layer :=
  ⟨.flat [("e".data, failFitEst)], .flat [], some [([0], [1])], false⟩

/-- The three warnings `fit` records on the C4 input: full-data fit failure,
fold fit failure, fold predict failure (the latter from `None.predict`). -/
def c4Warns : List Warn :=
  [.fitFailedWarning
    ("Could not fit estimator 'e'. Will drop from ensemble. Details:\nboom".data),
   .fitFailedWarning
    ("[0] Could not fit estimator 'e__0'. Will drop from ensemble. Details:\nboom".data),
   .fitFailedWarning
    ("[0] Could not predict with estimator 'e__0'. Predictions will be0. Details:\nNoneType object has no attribute predict".data)]

/-- **C4.**  Evaluating `fit` at the failing input: the call succeeds, the
warnings naming the estimator are recorded, but the failed estimator's
bundles (with a `None` estimator slot) ARE present in the returned fitted
list, and the cell `(1, 0)` of its prediction column holds NaN rather than
its default 0 — the code contradicts both its own warning messages
("Will drop from ensemble", "Predictions will be 0") and the claim. -/
theorem C4_theorem :
    ∃ P' c',
      fit c4Layer [[1], [2]] [10, 20] zeroMat emptyCache none 5 1 50
        = .ok ([(none, .bundle "e".data none (none, 0)),
                (some "0".data, .bundle "e__0".data none (some (1, 2), 0))],
               [(none, .trList []), (some "0".data, .trList [])],
               P', c', c4Warns)
      ∧ P' 1 0 = PVal.nan ∧ P' 0 0 = PVal.val 0 ∧ P' 1 1 = PVal.val 0 := by
  refine ⟨writeSlice zeroMat (1, 2) 0 none,
    pickle_save (pickle_save (pickle_save (pickle_save emptyCache (tKey none)
      (.trList [])) (tKey (some "0".data)) (.trList []))
      (eKey none "e".data) (.bundle "e".data none (none, 0)))
      (eKey (some "0".data) "e__0".data)
      (.bundle "e__0".data none (some (1, 2), 0)), ?_, ?_, ?_, ?_⟩
  · rfl
  · rfl
  · rfl
  · rfl

/-! ## C5 — estimator predict failure -/

/-- A cache holding the (empty) fitted transformer list for case `"0"`. -/
def c5Cache : Cache := pickle_save emptyCache (tKey (some "0".data)) (.trList [])

/-- **C5.**  (i) Fold path, fail-fast off: `fit_est` with an estimator whose
`predict` raises records a `FitFailedWarning` and completes, but the test
slice of its column is overwritten with NaN (the `None` assigned by numpy)
rather than left at its default 0; cells outside the slice keep their 0.
(ii) Fold path, fail-fast on: the same failure escalates to a hard
`FitFailedError`.  (iii) Predict-driver path (`_predict`), fail-fast off:
the whole column becomes NaN, likewise not left at 0. -/
theorem C5_theorem :
    (∃ c' P',
      fit_est c5Cache (some "0".data) "e".data badPredictEst [[1], [2]] [5, 6]
          (some zeroMat) (some (0, 1), some (1, 2), 0) false none 5 1 20 []
        = .ok (c', some P',
            [.fitFailedWarning
              ("[0] Could not predict with estimator 'e'. Predictions will be0. Details:\npboom".data)])
      ∧ P' 1 0 = PVal.nan ∧ P' 0 0 = PVal.val 0 ∧ P' 2 0 = PVal.val 0)
    ∧ fit_est c5Cache (some "0".data) "e".data badPredictEst [[1], [2]] [5, 6]
          (some zeroMat) (some (0, 1), some (1, 2), 0) true none 5 1 20 []
        = .error (.fitFailedError
            ("[0] Could not predict with estimator 'e'. Details:\npboom".data))
    ∧ (∃ P',
      _predict (some "a".data) [] "e".data (some fittedBadPredict) [[1]]
          zeroMat 2 false none []
        = .ok (P',
            [.fitFailedWarning
              ("[a] Could not predict with estimator 'e'. Predictions will be0. Details:\npboom".data)])
      ∧ P' 0 2 = PVal.nan ∧ P' 5 2 = PVal.nan ∧ P' 0 1 = PVal.val 0) := by
  refine ⟨⟨pickle_save c5Cache (eKey (some "0".data) "e".data)
      (.bundle "e".data (some fittedBadPredict) (some (1, 2), 0)),
    writeSlice zeroMat (1, 2) 0 none, ?_, ?_, ?_, ?_⟩, ?_,
    writeCol zeroMat 2 none, ?_, ?_, ?_, ?_⟩
  · rfl
  · rfl
  · rfl
  · rfl
  · rfl
  · rfl
  · rfl
  · rfl
  · rfl

/-! ## Characterization of `get_col_idx` (towards C1 and C2)

`enumKeys ks col` is the association list binding the `j`-th key of `ks` to
column `col + j`; the base pass of `get_col_idx` is shown to produce
exactly `enumKeys (baseKeys em) 0`. -/

/-- A string is hygienic for the `__`-encoding when appending `'_'` still
leaves it `'__'`-free: it neither contains `'__'` nor ends in `'_'`, so
`split('__')[0]` recovers it from any `s__i` fold variant. -/
def cleanStr (x : Str) : Prop := has2 (x ++ ['_']) = false

instance (x : Str) : Decidable (cleanStr x) :=
  inferInstanceAs (Decidable (has2 (x ++ ['_']) = false))

/-- Consecutive column numbering of a key list starting at `col`. -/
def enumKeys : List ColKey → Nat → IdxMap
  | [], _ => []
  | k :: rest, col => (k, col) :: enumKeys rest (col + 1)

theorem enumKeys_append (l1 l2 : List ColKey) : ∀ col,
    enumKeys (l1 ++ l2) col = enumKeys l1 col ++ enumKeys l2 (col + l1.length) := by
  induction l1 with
  | nil => intro col; simp [enumKeys]
  | cons k rest ih =>
    intro col
    show (k, col) :: enumKeys (rest ++ l2) (col + 1)
      = (k, col) :: (enumKeys rest (col + 1) ++ enumKeys l2 (col + (rest.length + 1)))
    rw [ih (col + 1)]
    have h : col + 1 + rest.length = col + (rest.length + 1) := by omega
    rw [h]

theorem enumKeys_keys (ks : List ColKey) : ∀ col,
    (enumKeys ks col).map Prod.fst = ks := by
  induction ks with
  | nil => intro col; rfl
  | cons k rest ih => intro col; simp [enumKeys, ih]

theorem dlookup_enumKeys_not_mem (ks : List ColKey) {k : ColKey} :
    ∀ col, k ∉ ks → dlookup (enumKeys ks col) k = none := by
  induction ks with
  | nil => intro col _; rfl
  | cons k' rest ih =>
    intro col h
    simp only [List.mem_cons] at h
    push_neg at h
    simp only [enumKeys, dlookup]
    rw [if_neg (fun e => h.1 (Eq.symm e))]
    exact ih (col + 1) h.2

theorem dlookup_enumKeys_get (ks : List ColKey) (hnd : ks.Nodup) :
    ∀ col j (h : j < ks.length),
      dlookup (enumKeys ks col) (ks.get ⟨j, h⟩) = some (col + j) := by
  induction ks with
  | nil => intro col j h; exact absurd h (by simp)
  | cons k rest ih =>
    intro col j h
    rcases List.nodup_cons.mp hnd with ⟨hk, hrest⟩
    match j with
    | 0 => simp [enumKeys, dlookup]
    | j + 1 =>
      have hget : (k :: rest).get ⟨j + 1, h⟩ = rest.get ⟨j, by simpa using h⟩ := rfl
      rw [hget]
      simp only [enumKeys, dlookup]
      rw [if_neg (by intro e; exact hk (by rw [e]; exact List.get_mem rest j _))]
      rw [ih hrest (col + 1) j (by simpa using h)]
      have : col + 1 + j = col + (j + 1) := by omega
      rw [this]

theorem dlookup_enumKeys_some (ks : List ColKey) :
    ∀ col k v, dlookup (enumKeys ks col) k = some v →
      ∃ j, ∃ h : j < ks.length, ks.get ⟨j, h⟩ = k ∧ v = col + j := by
  induction ks with
  | nil => intro col k v h; cases h
  | cons k0 rest ih =>
    intro col k v h
    simp only [enumKeys, dlookup] at h
    by_cases he : k0 = k
    · rw [if_pos he] at h
      refine ⟨0, by simp, he, ?_⟩
      cases h; omega
    · rw [if_neg he] at h
      obtain ⟨j, hj, hget, hv⟩ := ih (col + 1) k v h
      exact ⟨j + 1, by simpa using hj, hget, by omega⟩

/-- The names declared for case `c` in a case dict. -/
def namesOf (em : List (Str × List (Str × Inst))) (c : Str) : List Str :=
  ((dlookup em c).getD []).map Prod.fst

/-- The full-data column-map keys in assignment order (case-sorted, then
declared order). -/
def baseKeys (em : List (Str × List (Str × Inst))) : List ColKey :=
  (sortKeys em).flatMap (fun c => (namesOf em c).map (fun n => (some c, n)))

theorem baseInner_eq (c : Str) :
    ∀ (insts : List (Str × Inst)) (col : Nat) (idx : IdxMap),
    (insts.map Prod.fst).Nodup →
    (∀ n ∈ insts.map Prod.fst, ((some c, n) : ColKey) ∉ idx.map Prod.fst) →
    baseInner c insts col idx
      = (idx ++ enumKeys (insts.map (fun p => (some c, p.1))) col, col + insts.length) := by
  intro insts
  induction insts with
  | nil => intro col idx _ _; simp [baseInner, enumKeys]
  | cons p rest ih =>
    intro col idx hnd hfresh
    obtain ⟨n, e⟩ := p
    simp only [List.map_cons, List.nodup_cons] at hnd
    simp only [baseInner]
    rw [dinsert_fresh idx col
      (show ((some c, n) : ColKey) ∉ idx.map Prod.fst from
        hfresh n (by exact List.mem_cons_self _ _))]
    have hfr : ∀ n' ∈ rest.map Prod.fst,
        ((some c, n') : ColKey) ∉ (idx ++ [((some c, n), col)]).map Prod.fst := by
      intro n' hn'
      simp only [List.map_append, List.mem_append, List.map_cons, List.map_nil]
      push_neg
      refine ⟨hfresh n' (by simp [hn']), ?_⟩
      simp only [List.mem_singleton]
      intro hx
      exact hnd.1 (by cases hx; exact hn')
    rw [ih (col + 1) (idx ++ [((some c, n), col)]) hnd.2 hfr]
    simp only [List.map_cons, enumKeys, List.append_assoc, List.singleton_append,
      List.length_cons]
    have h : col + 1 + rest.length = col + (rest.length + 1) := by omega
    rw [h]

theorem baseOuter_eq (em : List (Str × List (Str × Inst))) :
    ∀ (cs : List Str) (col : Nat) (idx : IdxMap),
    cs.Nodup →
    (∀ c ∈ cs, (dlookup em c).isSome) →
    (∀ c ∈ cs, (namesOf em c).Nodup) →
    (∀ c ∈ cs, ∀ n ∈ namesOf em c, ((some c, n) : ColKey) ∉ idx.map Prod.fst) →
    ∃ colF, baseOuter em cs col idx
      = .ok (idx ++ enumKeys (cs.flatMap
          (fun c => (namesOf em c).map (fun n => (some c, n)))) col, colF) := by
  intro cs
  induction cs with
  | nil =>
    intro col idx _ _ _ _
    exact ⟨col, by simp [baseOuter, enumKeys]⟩
  | cons c rest ih =>
    intro col idx hnd hsome hnames hfresh
    rcases List.nodup_cons.mp hnd with ⟨hc, hrest⟩
    obtain ⟨insts, hinsts⟩ := Option.isSome_iff_exists.mp (hsome c (by simp))
    have hnof : namesOf em c = insts.map Prod.fst := by
      rw [namesOf, hinsts]; rfl
    simp only [baseOuter, hinsts]
    rw [baseInner_eq c insts col idx (by rw [← hnof]; exact hnames c (by simp))
      (by rw [← hnof]; exact fun n hn => hfresh c (by simp) n hn)]
    have hfreshRest : ∀ c' ∈ rest, ∀ n' ∈ namesOf em c',
        ((some c', n') : ColKey)
          ∉ (idx ++ enumKeys (insts.map (fun p => (some c, p.1))) col).map Prod.fst := by
      intro c' hc' n' hn'
      simp only [List.map_append, List.mem_append]
      push_neg
      refine ⟨hfresh c' (by simp [hc']) n' hn', ?_⟩
      rw [enumKeys_keys]
      intro hmem
      rcases List.mem_map.mp hmem with ⟨p, _, hp⟩
      have hcc : c = c' := by
        have := congrArg Prod.fst hp
        simpa using this
      exact hc (hcc ▸ hc')
    obtain ⟨colF, hrun⟩ := ih (col + insts.length)
      (idx ++ enumKeys (insts.map (fun p => (some c, p.1))) col)
      hrest (fun c' h => hsome c' (by simp [h]))
      (fun c' h => hnames c' (by simp [h])) hfreshRest
    refine ⟨colF, ?_⟩
    rw [hrun]
    simp only [List.flatMap_cons]
    rw [enumKeys_append, hnof]
    simp only [List.append_assoc, List.map_map, List.length_map]
    rfl

theorem flatBase_eq :
    ∀ (l : List (Str × Inst)) (i : Nat) (idx : IdxMap),
    (l.map Prod.fst).Nodup →
    (∀ n ∈ l.map Prod.fst, ((none, n) : ColKey) ∉ idx.map Prod.fst) →
    flatBase l i idx = idx ++ enumKeys (l.map (fun p => (none, p.1))) i := by
  intro l
  induction l with
  | nil => intro i idx _ _; simp [flatBase, enumKeys]
  | cons p rest ih =>
    intro i idx hnd hfresh
    obtain ⟨n, e⟩ := p
    simp only [List.map_cons, List.nodup_cons] at hnd
    simp only [flatBase]
    rw [dinsert_fresh idx i
      (show ((none, n) : ColKey) ∉ idx.map Prod.fst from
        hfresh n (by exact List.mem_cons_self _ _))]
    have hfr : ∀ n' ∈ rest.map Prod.fst,
        ((none, n') : ColKey) ∉ (idx ++ [((none, n), i)]).map Prod.fst := by
      intro n' hn'
      simp only [List.map_append, List.mem_append, List.map_cons, List.map_nil]
      push_neg
      refine ⟨hfresh n' (by simp [hn']), ?_⟩
      simp only [List.mem_singleton]
      intro hx
      exact hnd.1 (by cases hx; exact hn')
    rw [ih (i + 1) (idx ++ [((none, n), i)]) hnd.2 hfr]
    simp [enumKeys, List.append_assoc]

/-- The parent key of a fold-variant binding. -/
def parentKey (cf nf : Str) : ColKey := (parentCase cf, before2 nf)

/-- Invariant of the propagation pass relative to the base map `B` and the
skip list `case_list`: protected keys (case component in `case_list`) look
up exactly as in `B`, and every unprotected binding already present holds
its stripped parent's base column. -/
def PropInv (caseList : List (Option Str)) (B idx : IdxMap) : Prop :=
  (∀ k : ColKey, k.1 ∈ caseList → dlookup idx k = dlookup B k)
  ∧ (∀ a n' : Str, some a ∉ caseList →
      dlookup idx ((some a, n') : ColKey) ≠ none →
      dlookup idx ((some a, n') : ColKey) = dlookup B (parentKey a n'))

theorem propInner_run (caseList : List (Option Str)) (B : IdxMap) (cf : Str)
    (i : Nat) (hcf : (some cf : Option Str) ∉ caseList)
    (hpar : parentCase cf ∈ caseList) :
    ∀ (l : List (Str × Inst)) (idx : IdxMap),
    (∀ p ∈ l, cleanStr p.1 ∧ (dlookup B ((parentCase cf, p.1) : ColKey)).isSome) →
    PropInv caseList B idx →
    ∃ idx',
      propInner cf (parentCase cf) (l.map (fun p => (foldName p.1 i, p.2))) idx
        = .ok idx'
      ∧ PropInv caseList B idx'
      ∧ (∀ k v, dlookup idx k = some v → dlookup idx' k = some v)
      ∧ ∀ p ∈ l, dlookup idx' ((some cf, foldName p.1 i) : ColKey)
          = dlookup B ((parentCase cf, p.1) : ColKey) := by
  intro l
  induction l with
  | nil =>
    intro idx _ hinv
    exact ⟨idx, rfl, hinv, fun _ _ h => h, fun p hp => absurd hp (by simp)⟩
  | cons p rest ih =>
    intro idx hl hinv
    obtain ⟨n, e⟩ := p
    obtain ⟨hcln, hBsome⟩ := hl (n, e) (by simp)
    have hb2 : before2 (foldName n i) = n := before2_sep (natChars i) hcln
    have hparent : dlookup idx ((parentCase cf, before2 (foldName n i)) : ColKey)
        = dlookup B ((parentCase cf, n) : ColKey) := by
      rw [hb2]
      exact hinv.1 ((parentCase cf, n) : ColKey) hpar
    obtain ⟨v, hv⟩ := Option.isSome_iff_exists.mp hBsome
    simp only [List.map_cons, propInner]
    rw [hparent, hv]
    -- the new binding
    set kf : ColKey := (some cf, foldName n i) with hkf
    have hkf_unprot : kf.1 ∉ caseList := hcf
    have hkf_parent : parentKey cf (foldName n i) = (parentCase cf, n) := by
      rw [parentKey, hb2]
    -- invariant for the inserted map
    have hinv2 : PropInv caseList B (dinsert idx kf v) := by
      constructor
      · intro k hk
        rw [dlookup_dinsert_ne idx v (by intro he; rw [he] at hk; exact hcf hk)]
        exact hinv.1 k hk
      · intro a n' ha hne
        by_cases hak : ((some a, n') : ColKey) = kf
        · rw [hak, dlookup_dinsert_self]
          have hstr : a = cf ∧ n' = foldName n i := by
            rw [hkf] at hak
            exact ⟨congrArg (fun q => (Prod.fst q).getD []) hak,
              congrArg Prod.snd hak⟩
          rw [hstr.1, hstr.2, hkf_parent, hv]
        · rw [dlookup_dinsert_ne idx v hak] at hne ⊢
          exact hinv.2 a n' ha hne
    -- persistence into the inserted map
    have hpers2 : ∀ k v0, dlookup idx k = some v0 →
        dlookup (dinsert idx kf v) k = some v0 := by
      intro k v0 hk
      by_cases hak : k = kf
      · subst hak
        rw [dlookup_dinsert_self]
        have hdirty := hinv.2 cf (foldName n i) hcf (by rw [← hkf, hk]; simp)
        rw [← hkf, hkf_parent, hv] at hdirty
        rw [hk] at hdirty
        exact hdirty.symm
      · rw [dlookup_dinsert_ne idx v hak]
        exact hk
    obtain ⟨idx', hrun, hinv', hpers', hvals'⟩ :=
      ih (dinsert idx kf v) (fun q hq => hl q (by simp [hq])) hinv2
    refine ⟨idx', hrun, hinv', ?_, ?_⟩
    · intro k v0 hk
      exact hpers' k v0 (hpers2 k v0 hk)
    · intro q hq
      rcases List.mem_cons.mp hq with hq | hq

      · subst hq
        rw [hpers' kf v (dlookup_dinsert_self idx kf v), hv]
      · exact hvals' q hq

/-- Definitional unfolding of `propPass` at a cons. -/
theorem propPass_cons (caseList : List (Option Str)) (t : ETask)
    (rest : List ETask) (idx : IdxMap) :
    propPass caseList (t :: rest) idx
      = if t.cid ∈ caseList then propPass caseList rest idx
        else match t.cid with
          | none => .error (.attributeError "NoneType has no attribute split".data)
          | some cf =>
            match propInner cf (parentCase cf) t.insts idx with
            | .error e => .error e
            | .ok idx' => propPass caseList rest idx' := rfl

theorem propPass_run (caseList : List (Option Str)) (B : IdxMap) :
    ∀ (tasks : List ETask) (idx : IdxMap),
    (∀ t ∈ tasks, t.cid ∈ caseList ∨
      ∃ (cf : Str) (i : Nat) (l : List (Str × Inst)),
        t.cid = some cf ∧ (some cf : Option Str) ∉ caseList
        ∧ parentCase cf ∈ caseList
        ∧ t.insts = l.map (fun p => (foldName p.1 i, p.2))
        ∧ ∀ p ∈ l, cleanStr p.1
            ∧ (dlookup B ((parentCase cf, p.1) : ColKey)).isSome) →
    PropInv caseList B idx →
    ∃ idx', propPass caseList tasks idx = .ok idx'
      ∧ PropInv caseList B idx'
      ∧ (∀ k v, dlookup idx k = some v → dlookup idx' k = some v)
      ∧ (∀ t ∈ tasks, ∀ (cf : Str) (i : Nat) (l : List (Str × Inst)),
          t.cid = some cf →
          (some cf : Option Str) ∉ caseList →
          t.insts = l.map (fun p => (foldName p.1 i, p.2)) →
          (∀ p ∈ l, cleanStr p.1
            ∧ (dlookup B ((parentCase cf, p.1) : ColKey)).isSome) →
          ∀ p ∈ l, dlookup idx' ((some cf, foldName p.1 i) : ColKey)
            = dlookup B ((parentCase cf, p.1) : ColKey)) := by
  intro tasks
  induction tasks with
  | nil =>
    intro idx _ hinv
    exact ⟨idx, rfl, hinv, fun _ _ h => h, fun t ht => absurd ht (by simp)⟩
  | cons t rest ih =>
    intro idx hshape hinv
    rcases hshape t (by simp) with hskip | ⟨cf, i, l, hcid, hunprot, hpar, hinsts, hl⟩
    · -- head task is skipped
      obtain ⟨idx', hrun, hinv', hpers', hvals'⟩ :=
        ih idx (fun t' ht' => hshape t' (by simp [ht'])) hinv
      refine ⟨idx', by rw [propPass_cons, if_pos hskip]; exact hrun, hinv', hpers', ?_⟩
      intro t' ht' cf i l hcid hunprot hinsts hl
      rcases List.mem_cons.mp ht' with ht' | ht'
      · subst ht'
        rw [hcid] at hskip
        exact absurd hskip hunprot
      · exact hvals' t' ht' cf i l hcid hunprot hinsts hl
    · -- head task is a fold task: propagate
      have hnotin : t.cid ∉ caseList := by rw [hcid]; exact hunprot
      obtain ⟨idx1, hrun1, hinv1, hpers1, hvals1⟩ :=
        propInner_run caseList B cf i hunprot hpar l idx hl hinv
      obtain ⟨idx', hrun', hinv', hpers', hvals'⟩ :=
        ih idx1 (fun t' ht' => hshape t' (by simp [ht'])) hinv1
      have hstep : propPass caseList (t :: rest) idx = propPass caseList rest idx1 := by
        rw [propPass_cons, if_neg hnotin, hcid]
        show (match propInner cf (parentCase cf) t.insts idx with
          | .error e => (.error e : Except Err IdxMap)
          | .ok idx2 => propPass caseList rest idx2) = propPass caseList rest idx1
        rw [hinsts, hrun1]
      refine ⟨idx', by rw [hstep]; exact hrun', hinv', ?_, ?_⟩
      · intro k v hk
        exact hpers' k v (hpers1 k v hk)
      · intro t' ht' cf' i' l' hcid' hunprot' hinsts' hl'
        rcases List.mem_cons.mp ht' with ht' | ht'
        · -- the head task itself: values set by its propInner, persisted
          subst ht'
          have hcf' : cf' = cf := by
            rw [hcid] at hcid'
            exact (Option.some.inj hcid').symm
          rw [hcf'] at hl' ⊢
          intro p hp
          -- p's key value after the head step, persisted through the rest
          obtain ⟨vp, hvp⟩ := Option.isSome_iff_exists.mp (hl' p hp).2
          -- idx1 already satisfies the final invariant shape for this key
          have hsome1 : dlookup idx1 ((some cf, foldName p.1 i') : ColKey)
              = dlookup B ((parentCase cf, p.1) : ColKey) := by
            -- relate the i'-renaming to the i-renaming via string identity
            -- of the stored insts list
            have hmap : l.map (fun q : Str × Inst => (foldName q.1 i, q.2))
                = l'.map (fun q : Str × Inst => (foldName q.1 i', q.2)) := by
              rw [← hinsts, hinsts']
            -- p ∈ l' gives a corresponding entry in l with equal fold name
            rcases List.mem_map.mp (hmap ▸ List.mem_map_of_mem
              (fun q : Str × Inst => (foldName q.1 i', q.2)) hp)
              with ⟨q, hqmem, hqeq⟩
            have hname : foldName q.1 i = foldName p.1 i' := congrArg Prod.fst hqeq
            have hq1 : before2 (foldName q.1 i) = q.1 :=
              before2_sep (natChars i) (hl q hqmem).1
            have hp1 : before2 (foldName p.1 i') = p.1 :=
              before2_sep (natChars i') (hl' p hp).1
            have hqp : q.1 = p.1 := by rw [← hq1, hname, hp1]
            rw [← hname, ← hqp]
            exact hvals1 q hqmem
          rw [hvp] at hsome1
          rw [hpers' _ vp hsome1, hvp]
        · exact hvals' t' ht' cf' i' l' hcid' hunprot' hinsts' hl'

theorem dlookup_enumKeys_isSome_of_mem {ks : List ColKey} (hnd : ks.Nodup)
    {k : ColKey} (hk : k ∈ ks) (col : Nat) :
    (dlookup (enumKeys ks col) k).isSome := by
  obtain ⟨⟨j, hj⟩, hget⟩ := List.mem_iff_get.mp hk
  rw [← hget, dlookup_enumKeys_get ks hnd col j hj]
  rfl

theorem mem_flatMap_keys {em : List (Str × List (Str × Inst))} {cs : List Str}
    {k : ColKey}
    (hk : k ∈ cs.flatMap (fun c => (namesOf em c).map (fun n => ((some c, n) : ColKey)))) :
    ∃ c ∈ cs, ∃ n ∈ namesOf em c, k = (some c, n) := by
  rcases List.mem_flatMap.mp hk with ⟨c, hc, hmem⟩
  rcases List.mem_map.mp hmem with ⟨n, hn, rfl⟩
  exact ⟨c, hc, n, hn, rfl⟩

theorem flatMap_keys_nodup (em : List (Str × List (Str × Inst))) :
    ∀ cs : List Str, cs.Nodup →
    (∀ c ∈ cs, (namesOf em c).Nodup) →
    (cs.flatMap (fun c => (namesOf em c).map (fun n => ((some c, n) : ColKey)))).Nodup := by
  intro cs
  induction cs with
  | nil => intro _ _; simp
  | cons c rest ih =>
    intro hnd hnames
    rcases List.nodup_cons.mp hnd with ⟨hc, hrest⟩
    rw [List.flatMap_cons]
    refine List.Nodup.append ?_ (ih hrest (fun c' h => hnames c' (by simp [h]))) ?_
    · exact (hnames c (by simp)).map
        (fun a b hab => by simpa using congrArg Prod.snd hab)
    · intro k hk1 hk2
      rcases List.mem_map.mp hk1 with ⟨n, _, rfl⟩
      rcases mem_flatMap_keys hk2 with ⟨c', hc', n', _, hkey⟩
      have : c = c' := by simpa using congrArg Prod.fst hkey
      exact hc (this ▸ hc')

theorem baseKeys_nodup (em : List (Str × List (Str × Inst)))
    (hnd : (sortKeys em).Nodup)
    (hndN : ∀ c ∈ sortKeys em, (namesOf em c).Nodup) : (baseKeys em).Nodup :=
  flatMap_keys_nodup em (sortKeys em) hnd hndN

/-- Definitional unfolding of `get_col_idx` on the case-partitioned branch. -/
theorem get_col_idx_cases_eq (pm em : List (Str × List (Str × Inst)))
    (folds : List ETask) :
    get_col_idx (some (.cases pm)) (.cases em) folds
      = match baseOuter em (sortKeys pm) 0 [] with
        | .error e => .error e
        | .ok r => propPass ((sortKeys pm).map some) folds r.1 := rfl

/-- Definitional unfolding of `get_col_idx` on the flat branch with no
preprocessing. -/
theorem get_col_idx_flat_eq (l : List (Str × Inst)) (folds : List ETask) :
    get_col_idx none (.flat l) folds
      = propPass [none] folds (flatBase l 0 []) := rfl

/-- **C2, counterexample to the claim as stated.**  A case-partitioned
configuration whose single case id `"a__b"` contains `'__'`: the
propagation pass strips the fold case `"a__b__0"` at the *first* `'__'`,
looks up the non-existent parent `("a", "e")` and dies with a `KeyError` —
`get_col_idx` returns no Column Map at all, so neither the bijection nor
the fold-propagation property holds for this configuration. -/
theorem C2_counterexample :
    get_col_idx (some (.cases [("a__b".data, [("e".data, fittedOk)])]))
      (.cases [("a__b".data, [("e".data, fittedOk)])])
      (expand_instance_list (.cases [("a__b".data, [("e".data, fittedOk)])])
        (some [([0], [1])]))
      = .error (.keyError "e".data) := rfl

/-- Full characterization of `get_col_idx` on a hygienic case-partitioned
configuration: success, base bijection, fold propagation, and recovery of
the base-key position from any column value at a protected key. -/
theorem get_col_idx_cases_spec (pm em : List (Str × List (Str × Inst)))
    (ks : List (List Nat × List Nat))
    (hkeys : sortKeys pm = sortKeys em)
    (hnd : (sortKeys em).Nodup)
    (hcleanC : ∀ c ∈ sortKeys em, cleanStr c)
    (hndN : ∀ c ∈ sortKeys em, (namesOf em c).Nodup)
    (hcleanN : ∀ c ∈ sortKeys em, ∀ n ∈ namesOf em c, cleanStr n) :
    ∃ cm, get_col_idx (some (.cases pm)) (.cases em)
        (expand_instance_list (.cases em) (some ks)) = .ok cm
      ∧ (∀ j (h : j < (baseKeys em).length),
          dlookup cm ((baseKeys em).get ⟨j, h⟩) = some j)
      ∧ (∀ c ∈ sortKeys em, ∀ i, i < ks.length → ∀ n ∈ namesOf em c,
          dlookup cm ((some (foldName c i), foldName n i) : ColKey)
            = dlookup cm ((some c, n) : ColKey)
          ∧ (dlookup cm ((some c, n) : ColKey)).isSome)
      ∧ (∀ (k : ColKey) (v : Nat), k.1 ∈ (sortKeys em).map some →
          dlookup cm k = some v →
          ∃ h : v < (baseKeys em).length, (baseKeys em).get ⟨v, h⟩ = k) := by
  have hBnd : (baseKeys em).Nodup := baseKeys_nodup em hnd hndN
  set B : IdxMap := enumKeys (baseKeys em) 0 with hB
  set caseList : List (Option Str) := (sortKeys em).map some with hCL
  -- the base pass produces exactly B
  obtain ⟨colF, hbase⟩ := baseOuter_eq em (sortKeys em) 0 [] hnd
    (fun c hc => dlookup_isSome_of_mem_keys (mem_sortKeys.mp hc))
    hndN (by intro c _ n _ h; simp at h)
  -- facts about caseList membership
  have hdirty_notin : ∀ (c : Str) (i : Nat), c ∈ sortKeys em →
      (some (foldName c i) : Option Str) ∉ caseList := by
    intro c i _ hmem
    rcases List.mem_map.mp hmem with ⟨c', hc', heq⟩
    have hcc : c' = foldName c i := Option.some.inj heq
    have hcln : has2 c' = false := has2_of_clean (hcleanC c' hc')
    rw [hcc, foldName, has2_sep] at hcln
    cases hcln
  have hparent_in : ∀ (c : Str) (i : Nat), c ∈ sortKeys em →
      parentCase (foldName c i) ∈ caseList := by
    intro c i hc
    rw [parentCase, if_pos (by rw [foldName]; exact has2_sep c (natChars i)),
      foldName, before2_sep (natChars i) (hcleanC c hc)]
    exact List.mem_map_of_mem some hc
  -- invariant holds initially on B
  have hinv0 : PropInv caseList B B := by
    constructor
    · intro _ _; rfl
    · intro a n' ha hne
      exfalso
      apply hne
      apply dlookup_enumKeys_not_mem
      intro hmem
      rcases mem_flatMap_keys hmem with ⟨c, hc, n, _, hkey⟩
      have hac : some a = some c := congrArg Prod.fst hkey
      exact ha (by rw [hac]; exact List.mem_map_of_mem some hc)
  -- the task-shape hypothesis for the expanded list
  have hshape : ∀ t ∈ expand_instance_list (.cases em) (some ks),
      t.cid ∈ caseList ∨
      ∃ (cf : Str) (i : Nat) (l : List (Str × Inst)),
        t.cid = some cf ∧ (some cf : Option Str) ∉ caseList
        ∧ parentCase cf ∈ caseList
        ∧ t.insts = l.map (fun p => (foldName p.1 i, p.2))
        ∧ ∀ p ∈ l, cleanStr p.1
            ∧ (dlookup B ((parentCase cf, p.1) : ColKey)).isSome := by
    intro t ht
    rw [expand_instance_list] at ht
    rcases List.mem_append.mp ht with hfull | hfold
    · rcases List.mem_map.mp hfull with ⟨c, hc, rfl⟩
      exact Or.inl (List.mem_map_of_mem some hc)
    · rcases List.mem_flatMap.mp hfold with ⟨c, hc, hmem⟩
      rcases List.mem_map.mp hmem with ⟨q, _, rfl⟩
      refine Or.inr ⟨foldName c q.1, q.1,
        ((dlookup em c).getD []).map (fun p => (p.1, clone p.2)),
        rfl, hdirty_notin c q.1 hc, hparent_in c q.1 hc, ?_, ?_⟩
      · show ((dlookup em c).getD []).map (fun p => (foldName p.1 q.1, clone p.2))
          = (((dlookup em c).getD []).map (fun p => (p.1, clone p.2))).map
              (fun p => (foldName p.1 q.1, p.2))
        rw [List.map_map]
        rfl
      · intro p hp
        rcases List.mem_map.mp hp with ⟨p0, hp0, rfl⟩
        have hn : p0.1 ∈ namesOf em c := List.mem_map_of_mem Prod.fst hp0
        have hpar : parentCase (foldName c q.1) = some c := by
          rw [parentCase, if_pos (by rw [foldName]; exact has2_sep c (natChars q.1)),
            foldName, before2_sep (natChars q.1) (hcleanC c hc)]
        refine ⟨hcleanN c hc p0.1 hn, ?_⟩
        rw [hpar]
        exact dlookup_enumKeys_isSome_of_mem hBnd
          (List.mem_flatMap.mpr ⟨c, hc, List.mem_map_of_mem _ hn⟩) 0
  -- run the propagation pass
  obtain ⟨cm, hrun, hinv, _, hvals⟩ :=
    propPass_run caseList B (expand_instance_list (.cases em) (some ks)) B
      hshape hinv0
  refine ⟨cm, ?_, ?_, ?_, ?_⟩
  · rw [get_col_idx_cases_eq, hkeys, hbase]
    simpa using hrun
  · intro j h
    have hclean : ((baseKeys em).get ⟨j, h⟩).1 ∈ caseList := by
      rcases mem_flatMap_keys (List.get_mem (baseKeys em) j h) with ⟨c, hc, n, _, hkey⟩
      rw [hkey]
      exact List.mem_map_of_mem some hc
    rw [hinv.1 _ hclean, hB, dlookup_enumKeys_get (baseKeys em) hBnd 0 j h,
      Nat.zero_add]
  · intro c hc i hi n hn
    have hbase_clean : dlookup cm ((some c, n) : ColKey)
        = dlookup B ((some c, n) : ColKey) :=
      hinv.1 ((some c, n) : ColKey) (List.mem_map_of_mem some hc)
    have hBsome : (dlookup B ((some c, n) : ColKey)).isSome :=
      dlookup_enumKeys_isSome_of_mem hBnd
        (List.mem_flatMap.mpr ⟨c, hc, List.mem_map_of_mem _ hn⟩) 0
    -- the fold task for (c, i) is in the expanded list
    have htask : (⟨some (foldName c i), some (span (ks.get ⟨i, hi⟩).1),
        some (span (ks.get ⟨i, hi⟩).2),
        ((dlookup em c).getD []).map (fun p => (foldName p.1 i, clone p.2))⟩ : ETask)
        ∈ expand_instance_list (.cases em) (some ks) := by
      rw [expand_instance_list]
      refine List.mem_append.mpr (Or.inr (List.mem_flatMap.mpr ⟨c, hc, ?_⟩))
      have henum : (i, ks.get ⟨i, hi⟩) ∈ ks.enum := by
        have hlen : i < ks.enum.length := by rw [List.enum_length]; exact hi
        have : ks.enum.get ⟨i, hlen⟩ = (i, ks.get ⟨i, hi⟩) := by
          simp [List.getElem_enum]
        rw [← this]
        exact List.get_mem _ _ _
      exact List.mem_map.mpr ⟨(i, ks.get ⟨i, hi⟩), henum, rfl⟩
    have hpar : parentCase (foldName c i) = some c := by
      rw [parentCase, if_pos (by rw [foldName]; exact has2_sep c (natChars i)),
        foldName, before2_sep (natChars i) (hcleanC c hc)]
    obtain ⟨p0, hp0, hp0n⟩ : ∃ p0 ∈ ((dlookup em c).getD []).map
        (fun p => (p.1, clone p.2)), p0.1 = n := by
      rcases List.mem_map.mp hn with ⟨p, hp, rfl⟩
      exact ⟨(p.1, clone p.2), List.mem_map_of_mem _ hp, rfl⟩
    have hfold := hvals _ htask (foldName c i) i
      (((dlookup em c).getD []).map (fun p => (p.1, clone p.2)))
      rfl (hdirty_notin c i hc)
      (by show ((dlookup em c).getD []).map (fun p => (foldName p.1 i, clone p.2))
            = (((dlookup em c).getD []).map (fun p => (p.1, clone p.2))).map
                (fun p => (foldName p.1 i, p.2))
          rw [List.map_map]
          rfl)
      (by intro p hp
          rcases List.mem_map.mp hp with ⟨q0, hq0, rfl⟩
          have hnq : q0.1 ∈ namesOf em c := List.mem_map_of_mem Prod.fst hq0
          refine ⟨hcleanN c hc q0.1 hnq, ?_⟩
          rw [hpar]
          exact dlookup_enumKeys_isSome_of_mem hBnd
            (List.mem_flatMap.mpr ⟨c, hc, List.mem_map_of_mem _ hnq⟩) 0)
      p0 hp0
    rw [hp0n, hpar] at hfold
    refine ⟨?_, by rw [hbase_clean]; exact hBsome⟩
    rw [hfold, hbase_clean]
  · intro k v hk hv
    rw [hinv.1 k hk, hB] at hv
    obtain ⟨j, hj, hget, hvj⟩ := dlookup_enumKeys_some (baseKeys em) 0 k v hv
    have hvj' : v = j := by omega
    subst hvj'
    exact ⟨hj, hget⟩

/-- **C2 (amended).**  For every case-partitioned configuration whose
preprocessing and estimator dicts share the same (duplicate-free) case
ids, with estimator names unique within each case, and with every case id
and estimator name hygienic for the `__`-encoding (no `'__'` inside, no
trailing `'_'`): `get_col_idx` succeeds; the returned Column Map sends the
`j`-th full-data `(case, name)` key — in case-sorted, then within-case
declared order — to column `j` (hence it is a bijection onto
`{0, …, n-1}`); and every fold-variant key `(case__i, name__i)` resolves
to the same (defined) column as its parent `(case, name)` key. -/
theorem C2_theorem (pm em : List (Str × List (Str × Inst)))
    (ks : List (List Nat × List Nat))
    (hkeys : sortKeys pm = sortKeys em)
    (hnd : (sortKeys em).Nodup)
    (hcleanC : ∀ c ∈ sortKeys em, cleanStr c)
    (hndN : ∀ c ∈ sortKeys em, (namesOf em c).Nodup)
    (hcleanN : ∀ c ∈ sortKeys em, ∀ n ∈ namesOf em c, cleanStr n) :
    ∃ cm, get_col_idx (some (.cases pm)) (.cases em)
        (expand_instance_list (.cases em) (some ks)) = .ok cm
      ∧ (∀ j (h : j < (baseKeys em).length),
          dlookup cm ((baseKeys em).get ⟨j, h⟩) = some j)
      ∧ (∀ c ∈ sortKeys em, ∀ i, i < ks.length → ∀ n ∈ namesOf em c,
          dlookup cm ((some (foldName c i), foldName n i) : ColKey)
            = dlookup cm ((some c, n) : ColKey)
          ∧ (dlookup cm ((some c, n) : ColKey)).isSome) := by
  obtain ⟨cm, hok, hbij, hfold, _⟩ :=
    get_col_idx_cases_spec pm em ks hkeys hnd hcleanC hndN hcleanN
  exact ⟨cm, hok, hbij, hfold⟩

/-- A hygienic concrete configuration for the C2 witness. -/
def c2wEm : List (Str × List (Str × Inst)) :=
  [("a".data, [("e1".data, fittedOk), ("e2".data, fittedOk)])]

/-- **C2, witness** at a concrete hygienic configuration. -/
theorem C2_witness :
    ∃ cm, get_col_idx (some (.cases c2wEm)) (.cases c2wEm)
        (expand_instance_list (.cases c2wEm) (some [([0], [1])])) = .ok cm := by
  obtain ⟨cm, hok, _, _⟩ := C2_theorem c2wEm c2wEm [([0], [1])] rfl
    (by decide) (by decide) (by decide) (by decide)
  exact ⟨cm, hok⟩

/-! ## C1 — disjointness of the prediction-matrix write rectangles -/

/-- The flat-branch base keys in declared order. -/
def flatKeys (l : List (Str × Inst)) : List ColKey := l.map (fun p => (none, p.1))

theorem flatKeys_nodup {l : List (Str × Inst)} (hnd : (l.map Prod.fst).Nodup) :
    (flatKeys l).Nodup := by
  have : flatKeys l = (l.map Prod.fst).map (fun n => ((none, n) : ColKey)) := by
    rw [flatKeys, List.map_map]
    rfl
  rw [this]
  exact hnd.map (fun a b hab => by simpa using congrArg Prod.snd hab)

/-- Full characterization of `get_col_idx` on a hygienic flat
configuration. -/
theorem get_col_idx_flat_spec (l : List (Str × Inst))
    (ks : List (List Nat × List Nat))
    (hnd : (l.map Prod.fst).Nodup)
    (hclean : ∀ n ∈ l.map Prod.fst, cleanStr n) :
    ∃ cm, get_col_idx none (.flat l)
        (expand_instance_list (.flat l) (some ks)) = .ok cm
      ∧ (∀ j (h : j < (flatKeys l).length),
          dlookup cm ((flatKeys l).get ⟨j, h⟩) = some j)
      ∧ (∀ i, i < ks.length → ∀ n ∈ l.map Prod.fst,
          dlookup cm ((some (natChars i), foldName n i) : ColKey)
            = dlookup cm ((none, n) : ColKey)
          ∧ (dlookup cm ((none, n) : ColKey)).isSome)
      ∧ (∀ (k : ColKey) (v : Nat), k.1 = none → dlookup cm k = some v →
          ∃ h : v < (flatKeys l).length, (flatKeys l).get ⟨v, h⟩ = k) := by
  have hBnd : (flatKeys l).Nodup := flatKeys_nodup hnd
  set B : IdxMap := enumKeys (flatKeys l) 0 with hB
  set caseList : List (Option Str) := [none] with hCL
  have hbase : flatBase l 0 [] = B := by
    rw [flatBase_eq l 0 [] hnd (by intro n _ h; simp at h)]
    rfl
  have hBnone : ∀ (a n' : Str), dlookup B ((some a, n') : ColKey) = none := by
    intro a n'
    apply dlookup_enumKeys_not_mem
    intro hmem
    rcases List.mem_map.mp hmem with ⟨p, _, hp⟩
    cases congrArg Prod.fst hp
  have hinv0 : PropInv caseList B B := by
    refine ⟨fun _ _ => rfl, ?_⟩
    intro a n' _ hne
    exact absurd (hBnone a n') hne
  have hpc : ∀ i : Nat, parentCase (natChars i) = none := by
    intro i
    rw [parentCase, if_neg (by rw [has2_natChars]; exact Bool.false_ne_true)]
  have hBn_mem : ∀ n ∈ l.map Prod.fst,
      (dlookup B ((none, n) : ColKey)).isSome := by
    intro n hn
    exact dlookup_enumKeys_isSome_of_mem hBnd
      (by rcases List.mem_map.mp hn with ⟨p, hp, rfl⟩
          exact List.mem_map_of_mem _ hp) 0
  have hshape : ∀ t ∈ expand_instance_list (.flat l) (some ks),
      t.cid ∈ caseList ∨
      ∃ (cf : Str) (i : Nat) (l' : List (Str × Inst)),
        t.cid = some cf ∧ (some cf : Option Str) ∉ caseList
        ∧ parentCase cf ∈ caseList
        ∧ t.insts = l'.map (fun p => (foldName p.1 i, p.2))
        ∧ ∀ p ∈ l', cleanStr p.1
            ∧ (dlookup B ((parentCase cf, p.1) : ColKey)).isSome := by
    intro t ht
    rw [expand_instance_list] at ht
    rcases List.mem_append.mp ht with hfull | hfold
    · rcases List.mem_singleton.mp hfull with rfl
      exact Or.inl (by rw [hCL]; simp)
    · rcases List.mem_map.mp hfold with ⟨q, _, rfl⟩
      refine Or.inr ⟨natChars q.1, q.1, l.map (fun p => (p.1, clone p.2)),
        rfl, by rw [hCL]; simp, by rw [hpc, hCL]; simp, ?_, ?_⟩
      · show l.map (fun p => (foldName p.1 q.1, clone p.2))
          = (l.map (fun p => (p.1, clone p.2))).map (fun p => (foldName p.1 q.1, p.2))
        rw [List.map_map]
        rfl
      · intro p hp
        rcases List.mem_map.mp hp with ⟨p0, hp0, rfl⟩
        have hn : p0.1 ∈ l.map Prod.fst := List.mem_map_of_mem Prod.fst hp0
        refine ⟨hclean p0.1 hn, ?_⟩
        rw [hpc]
        exact hBn_mem p0.1 hn
  obtain ⟨cm, hrun, hinv, _, hvals⟩ :=
    propPass_run caseList B (expand_instance_list (.flat l) (some ks)) B
      hshape hinv0
  refine ⟨cm, ?_, ?_, ?_, ?_⟩
  · rw [get_col_idx_flat_eq, hbase]
    exact hrun
  · intro j h
    have hcl : ((flatKeys l).get ⟨j, h⟩).1 ∈ caseList := by
      rcases List.mem_map.mp (List.get_mem (flatKeys l) j h) with ⟨p, _, hp⟩
      rw [← hp, hCL]
      simp
    rw [hinv.1 _ hcl, hB, dlookup_enumKeys_get (flatKeys l) hBnd 0 j h,
      Nat.zero_add]
  · intro i hi n hn
    have hbase_clean : dlookup cm ((none, n) : ColKey)
        = dlookup B ((none, n) : ColKey) :=
      hinv.1 ((none, n) : ColKey) (by rw [hCL]; simp)
    have htask : (⟨some (natChars i), some (span (ks.get ⟨i, hi⟩).1),
        some (span (ks.get ⟨i, hi⟩).2),
        l.map (fun p => (foldName p.1 i, clone p.2))⟩ : ETask)
        ∈ expand_instance_list (.flat l) (some ks) := by
      rw [expand_instance_list]
      refine List.mem_append.mpr (Or.inr ?_)
      have hlen : i < ks.enum.length := by rw [List.enum_length]; exact hi
      have henum : (i, ks.get ⟨i, hi⟩) ∈ ks.enum := by
        have : ks.enum.get ⟨i, hlen⟩ = (i, ks.get ⟨i, hi⟩) := by
          simp [List.getElem_enum]
        rw [← this]
        exact List.get_mem _ _ _
      exact List.mem_map.mpr ⟨(i, ks.get ⟨i, hi⟩), henum, rfl⟩
    obtain ⟨p0, hp0, hp0n⟩ : ∃ p0 ∈ l.map (fun p => (p.1, clone p.2)), p0.1 = n := by
      rcases List.mem_map.mp hn with ⟨p, hp, rfl⟩
      exact ⟨(p.1, clone p.2), List.mem_map_of_mem _ hp, rfl⟩
    have hfold := hvals _ htask (natChars i) i (l.map (fun p => (p.1, clone p.2)))
      rfl (by rw [hCL]; simp)
      (by show l.map (fun p => (foldName p.1 i, clone p.2))
            = (l.map (fun p => (p.1, clone p.2))).map (fun p => (foldName p.1 i, p.2))
          rw [List.map_map]
          rfl)
      (by intro p hp
          rcases List.mem_map.mp hp with ⟨q0, hq0, rfl⟩
          have hnq : q0.1 ∈ l.map Prod.fst := List.mem_map_of_mem Prod.fst hq0
          refine ⟨hclean q0.1 hnq, ?_⟩
          rw [hpc]
          exact hBn_mem q0.1 hnq)
      p0 hp0
    rw [hp0n, hpc] at hfold
    refine ⟨?_, by rw [hbase_clean]; exact hBn_mem n hn⟩
    rw [hfold, hbase_clean]
  · intro k v hk hv
    have hkc : k.1 ∈ caseList := by rw [hk, hCL]; simp
    rw [hinv.1 k hkc, hB] at hv
    obtain ⟨j, hj, hget, hvj⟩ := dlookup_enumKeys_some (flatKeys l) 0 k v hv
    have hvj' : v = j := by omega
    subst hvj'
    exact ⟨hj, hget⟩

/-- Shape of a member of the case-partitioned expansion that has a test
range: it is a fold task. -/
theorem mem_expand_cases_tei {em : List (Str × List (Str × Inst))}
    {ks : List (List Nat × List Nat)} {t : ETask}
    (ht : t ∈ expand_instance_list (.cases em) (some ks)) :
    t.tei = none ∨
    ∃ c, c ∈ sortKeys em ∧ ∃ i, ∃ hi : i < ks.length,
      t.cid = some (foldName c i)
      ∧ t.tei = some (span (ks.get ⟨i, hi⟩).2)
      ∧ t.insts = ((dlookup em c).getD []).map
          (fun p => (foldName p.1 i, clone p.2)) := by
  rw [expand_instance_list] at ht
  rcases List.mem_append.mp ht with h | h
  · rcases List.mem_map.mp h with ⟨c, _, rfl⟩
    exact Or.inl rfl
  · rcases List.mem_flatMap.mp h with ⟨c, hc, hm⟩
    rcases List.mem_map.mp hm with ⟨q, hq, rfl⟩
    obtain ⟨i, pr⟩ := q
    obtain ⟨hi, hpr⟩ := List.mem_enum hq
    refine Or.inr ⟨c, hc, i, hi, rfl, ?_, rfl⟩
    show some (span pr.2) = some (span (ks.get ⟨i, hi⟩).2)
    rw [hpr]
    rfl

/-- Shape of a member of the flat expansion that has a test range. -/
theorem mem_expand_flat_tei {l : List (Str × Inst)}
    {ks : List (List Nat × List Nat)} {t : ETask}
    (ht : t ∈ expand_instance_list (.flat l) (some ks)) :
    t.tei = none ∨
    ∃ i, ∃ hi : i < ks.length,
      t.cid = some (natChars i)
      ∧ t.tei = some (span (ks.get ⟨i, hi⟩).2)
      ∧ t.insts = l.map (fun p => (foldName p.1 i, clone p.2)) := by
  rw [expand_instance_list] at ht
  rcases List.mem_append.mp ht with h | h
  · rcases List.mem_singleton.mp h with rfl
    exact Or.inl rfl
  · rcases List.mem_map.mp h with ⟨q, hq, rfl⟩
    obtain ⟨i, pr⟩ := q
    obtain ⟨hi, hpr⟩ := List.mem_enum hq
    refine Or.inr ⟨i, hi, rfl, ?_, rfl⟩
    show some (span pr.2) = some (span (ks.get ⟨i, hi⟩).2)
    rw [hpr]
    rfl

/-- **C1, counterexample to the claim as stated.**  A flat configuration
with one estimator and two folds whose *test index sets* `[0, 4]` and
`[1, 2, 3]` are pairwise disjoint: the code stores only the spans
`(tei[0], tei[-1]+1)`, here `(0, 5)` and `(1, 4)`, which overlap on rows
1–3; both fold tasks write column 0, so the two distinct tasks' target
rectangles overlap (e.g. cell `(2, 0)`), contradicting the claim. -/
theorem C1_counterexample :
    (∀ x ∈ [0, 4], x ∈ [1, 2, 3] → False)
    ∧ (expand_instance_list (.flat [("e".data, fittedOk)])
        (some [([5], [0, 4]), ([0], [1, 2, 3])])).map (fun t => (t.cid, t.tei))
      = [(none, none),
         (some "0".data, some (0, 5)),
         (some "1".data, some (1, 4))]
    ∧ get_col_idx none (.flat [("e".data, fittedOk)])
        (expand_instance_list (.flat [("e".data, fittedOk)])
          (some [([5], [0, 4]), ([1], [1, 2, 3])]))
      = .ok [((none, "e".data), 0),
             ((some "0".data, "e__0".data), 0),
             ((some "1".data, "e__1".data), 0)]
    ∧ ((some "0".data, "e__0".data) : ColKey) ≠ (some "1".data, "e__1".data)
    ∧ (0 ≤ 2 ∧ 2 < 5 ∧ 1 ≤ 2 ∧ 2 < 4) := by
  refine ⟨by decide, rfl, rfl, by decide, by decide⟩

/-- **C1 (amended).**  Strengthening the hypothesis from "pairwise disjoint
test index sets" to "pairwise disjoint test spans `[tei[0], tei[-1]+1)`"
(the code only keeps the spans), and assuming the name hygiene required for
the Column Map to be built at all (unique, `__`-free names): for any two
distinct estimator-fit tasks (distinct `(case id, instance name)`
identities) carrying test ranges, their target rectangles
`rows [tei) × {assigned column}` never overlap — same column forces
disjoint row ranges, and overlapping row ranges force different columns.
Stated for both the case-partitioned and the flat configuration shape. -/
theorem C1_theorem :
    (∀ (pm em : List (Str × List (Str × Inst))) (ks : List (List Nat × List Nat)),
      sortKeys pm = sortKeys em →
      (sortKeys em).Nodup →
      (∀ c ∈ sortKeys em, cleanStr c) →
      (∀ c ∈ sortKeys em, (namesOf em c).Nodup) →
      (∀ c ∈ sortKeys em, ∀ n ∈ namesOf em c, cleanStr n) →
      (∀ i₁ i₂ (h₁ : i₁ < ks.length) (h₂ : i₂ < ks.length), i₁ ≠ i₂ →
        (span (ks.get ⟨i₁, h₁⟩).2).2 ≤ (span (ks.get ⟨i₂, h₂⟩).2).1 ∨
        (span (ks.get ⟨i₂, h₂⟩).2).2 ≤ (span (ks.get ⟨i₁, h₁⟩).2).1) →
      ∃ cm, get_col_idx (some (.cases pm)) (.cases em)
          (expand_instance_list (.cases em) (some ks)) = .ok cm
        ∧ ∀ t₁ ∈ expand_instance_list (.cases em) (some ks),
          ∀ t₂ ∈ expand_instance_list (.cases em) (some ks),
          ∀ p₁ ∈ t₁.insts, ∀ p₂ ∈ t₂.insts,
          ((t₁.cid, p₁.1) : ColKey) ≠ (t₂.cid, p₂.1) →
          ∀ r₁ r₂, t₁.tei = some r₁ → t₂.tei = some r₂ →
          ∀ col₁ col₂, dlookup cm ((t₁.cid, p₁.1) : ColKey) = some col₁ →
            dlookup cm ((t₂.cid, p₂.1) : ColKey) = some col₂ →
          ¬ (col₁ = col₂ ∧ ∃ x, (r₁.1 ≤ x ∧ x < r₁.2) ∧ (r₂.1 ≤ x ∧ x < r₂.2)))
    ∧ (∀ (l : List (Str × Inst)) (ks : List (List Nat × List Nat)),
      (l.map Prod.fst).Nodup →
      (∀ n ∈ l.map Prod.fst, cleanStr n) →
      (∀ i₁ i₂ (h₁ : i₁ < ks.length) (h₂ : i₂ < ks.length), i₁ ≠ i₂ →
        (span (ks.get ⟨i₁, h₁⟩).2).2 ≤ (span (ks.get ⟨i₂, h₂⟩).2).1 ∨
        (span (ks.get ⟨i₂, h₂⟩).2).2 ≤ (span (ks.get ⟨i₁, h₁⟩).2).1) →
      ∃ cm, get_col_idx none (.flat l)
          (expand_instance_list (.flat l) (some ks)) = .ok cm
        ∧ ∀ t₁ ∈ expand_instance_list (.flat l) (some ks),
          ∀ t₂ ∈ expand_instance_list (.flat l) (some ks),
          ∀ p₁ ∈ t₁.insts, ∀ p₂ ∈ t₂.insts,
          ((t₁.cid, p₁.1) : ColKey) ≠ (t₂.cid, p₂.1) →
          ∀ r₁ r₂, t₁.tei = some r₁ → t₂.tei = some r₂ →
          ∀ col₁ col₂, dlookup cm ((t₁.cid, p₁.1) : ColKey) = some col₁ →
            dlookup cm ((t₂.cid, p₂.1) : ColKey) = some col₂ →
          ¬ (col₁ = col₂ ∧ ∃ x, (r₁.1 ≤ x ∧ x < r₁.2) ∧ (r₂.1 ≤ x ∧ x < r₂.2))) := by
  constructor
  · intro pm em ks hkeys hnd hcleanC hndN hcleanN hdisj
    obtain ⟨cm, hok, _, hfold, hpos⟩ :=
      get_col_idx_cases_spec pm em ks hkeys hnd hcleanC hndN hcleanN
    refine ⟨cm, hok, ?_⟩
    intro t₁ ht₁ t₂ ht₂ p₁ hp₁ p₂ hp₂ hne r₁ r₂ htei₁ htei₂ col₁ col₂ hcol₁ hcol₂
    rintro ⟨hcc, x, hx₁, hx₂⟩
    rcases mem_expand_cases_tei ht₁ with hnone | ⟨c₁, hc₁, i₁, hi₁, hcid₁, htr₁, hins₁⟩
    · rw [hnone] at htei₁; cases htei₁
    rcases mem_expand_cases_tei ht₂ with hnone | ⟨c₂, hc₂, i₂, hi₂, hcid₂, htr₂, hins₂⟩
    · rw [hnone] at htei₂; cases htei₂
    rw [hins₁] at hp₁
    rcases List.mem_map.mp hp₁ with ⟨q₁, hq₁, rfl⟩
    rw [hins₂] at hp₂
    rcases List.mem_map.mp hp₂ with ⟨q₂, hq₂, rfl⟩
    have hn₁ : q₁.1 ∈ namesOf em c₁ := List.mem_map_of_mem Prod.fst hq₁
    have hn₂ : q₂.1 ∈ namesOf em c₂ := List.mem_map_of_mem Prod.fst hq₂
    -- resolve both columns to base keys
    have hcol₁' : dlookup cm ((some c₁, q₁.1) : ColKey) = some col₁ := by
      rw [← (hfold c₁ hc₁ i₁ hi₁ q₁.1 hn₁).1, ← hcid₁]
      exact hcol₁
    have hcol₂' : dlookup cm ((some c₂, q₂.1) : ColKey) = some col₂ := by
      rw [← (hfold c₂ hc₂ i₂ hi₂ q₂.1 hn₂).1, ← hcid₂]
      exact hcol₂
    obtain ⟨hv₁, hget₁⟩ := hpos ((some c₁, q₁.1) : ColKey) col₁
      (List.mem_map_of_mem some hc₁) hcol₁'
    obtain ⟨hv₂, hget₂⟩ := hpos ((some c₂, q₂.1) : ColKey) col₂
      (List.mem_map_of_mem some hc₂) hcol₂'
    have hkeq : ((some c₁, q₁.1) : ColKey) = (some c₂, q₂.1) := by
      rw [← hget₁, ← hget₂]
      exact congrArg (baseKeys em).get (Fin.ext hcc)
    have hceq : c₁ = c₂ := by
      have := congrArg Prod.fst hkeq
      simpa using this
    have hneq : q₁.1 = q₂.1 := congrArg Prod.snd hkeq
    have hii : i₁ ≠ i₂ := by
      intro hieq
      apply hne
      rw [hcid₁, hcid₂, hceq, hieq, hneq]
    have hr₁ : r₁ = span (ks.get ⟨i₁, hi₁⟩).2 := by
      rw [htei₁] at htr₁
      exact Option.some.inj htr₁.symm ▸ (Option.some.inj htr₁).symm
    have hr₂ : r₂ = span (ks.get ⟨i₂, hi₂⟩).2 := by
      rw [htei₂] at htr₂
      exact Option.some.inj htr₂.symm ▸ (Option.some.inj htr₂).symm
    rcases hdisj i₁ i₂ hi₁ hi₂ hii with hd | hd
    · rw [← hr₁, ← hr₂] at hd
      omega
    · rw [← hr₁, ← hr₂] at hd
      omega
  · intro l ks hnd hclean hdisj
    obtain ⟨cm, hok, _, hfold, hpos⟩ := get_col_idx_flat_spec l ks hnd hclean
    refine ⟨cm, hok, ?_⟩
    intro t₁ ht₁ t₂ ht₂ p₁ hp₁ p₂ hp₂ hne r₁ r₂ htei₁ htei₂ col₁ col₂ hcol₁ hcol₂
    rintro ⟨hcc, x, hx₁, hx₂⟩
    rcases mem_expand_flat_tei ht₁ with hnone | ⟨i₁, hi₁, hcid₁, htr₁, hins₁⟩
    · rw [hnone] at htei₁; cases htei₁
    rcases mem_expand_flat_tei ht₂ with hnone | ⟨i₂, hi₂, hcid₂, htr₂, hins₂⟩
    · rw [hnone] at htei₂; cases htei₂
    rw [hins₁] at hp₁
    rcases List.mem_map.mp hp₁ with ⟨q₁, hq₁, rfl⟩
    rw [hins₂] at hp₂
    rcases List.mem_map.mp hp₂ with ⟨q₂, hq₂, rfl⟩
    have hn₁ : q₁.1 ∈ l.map Prod.fst := List.mem_map_of_mem Prod.fst hq₁
    have hn₂ : q₂.1 ∈ l.map Prod.fst := List.mem_map_of_mem Prod.fst hq₂
    have hcol₁' : dlookup cm ((none, q₁.1) : ColKey) = some col₁ := by
      rw [← (hfold i₁ hi₁ q₁.1 hn₁).1, ← hcid₁]
      exact hcol₁
    have hcol₂' : dlookup cm ((none, q₂.1) : ColKey) = some col₂ := by
      rw [← (hfold i₂ hi₂ q₂.1 hn₂).1, ← hcid₂]
      exact hcol₂
    obtain ⟨hv₁, hget₁⟩ := hpos ((none, q₁.1) : ColKey) col₁ rfl hcol₁'
    obtain ⟨hv₂, hget₂⟩ := hpos ((none, q₂.1) : ColKey) col₂ rfl hcol₂'
    have hkeq : ((none, q₁.1) : ColKey) = (none, q₂.1) := by
      rw [← hget₁, ← hget₂]
      exact congrArg (flatKeys l).get (Fin.ext hcc)
    have hneq : q₁.1 = q₂.1 := congrArg Prod.snd hkeq
    have hii : i₁ ≠ i₂ := by
      intro hieq
      apply hne
      rw [hcid₁, hcid₂, hieq, hneq]
    have hr₁ : r₁ = span (ks.get ⟨i₁, hi₁⟩).2 := by
      rw [htei₁] at htr₁
      exact (Option.some.inj htr₁)
    have hr₂ : r₂ = span (ks.get ⟨i₂, hi₂⟩).2 := by
      rw [htei₂] at htr₂
      exact (Option.some.inj htr₂)
    rcases hdisj i₁ i₂ hi₁ hi₂ hii with hd | hd
    · rw [← hr₁, ← hr₂] at hd
      omega
    · rw [← hr₁, ← hr₂] at hd
      omega

/-- **C1, witness.**  A concrete flat configuration with two contiguous,
span-disjoint folds: the amended theorem applies and the Column Map is
produced. -/
theorem C1_witness :
    ∃ cm, get_col_idx none (.flat [("w".data, fittedOk)])
        (expand_instance_list (.flat [("w".data, fittedOk)])
          (some [([0], [1]), ([1], [0])])) = .ok cm := by
  have hdisj : ∀ (i₁ i₂ : Nat)
      (h₁ : i₁ < ([([0], [1]), ([1], [0])] : List (List Nat × List Nat)).length)
      (h₂ : i₂ < ([([0], [1]), ([1], [0])] : List (List Nat × List Nat)).length),
      i₁ ≠ i₂ →
      (span (([([0], [1]), ([1], [0])] : List (List Nat × List Nat)).get ⟨i₁, h₁⟩).2).2
        ≤ (span (([([0], [1]), ([1], [0])] : List (List Nat × List Nat)).get ⟨i₂, h₂⟩).2).1 ∨
      (span (([([0], [1]), ([1], [0])] : List (List Nat × List Nat)).get ⟨i₂, h₂⟩).2).2
        ≤ (span (([([0], [1]), ([1], [0])] : List (List Nat × List Nat)).get ⟨i₁, h₁⟩).2).1 := by
    intro i₁ i₂ h₁ h₂ hne
    simp only [List.length_cons, List.length_nil] at h₁ h₂
    interval_cases i₁ <;> interval_cases i₂ <;>
      first
        | exact absurd rfl hne
        | exact Or.inl (Nat.le_refl _)
        | exact Or.inr (Nat.le_refl _)
  obtain ⟨cm, hok, _⟩ := C1_theorem.2 [("w".data, fittedOk)] [([0], [1]), ([1], [0])]
    (by decide) (by decide) hdisj
  exact ⟨cm, hok⟩

/-! ## C9 — frame property of `fit` on the prediction matrix -/

theorem writeSlice_frame (P : PredMat) (r : Rng) (col : Nat)
    (pv : Option (List Int)) (i j : Nat)
    (h : ¬ (r.1 ≤ i ∧ i < r.2 ∧ j = col)) :
    writeSlice P r col pv i j = P i j := by
  unfold writeSlice
  rw [if_neg h]

/-- Inverting a successful `Except.bind`: the first step succeeded and the
continuation succeeded on its value. -/
theorem except_bind_ok {a b g : Type} {x : Except g a} {f : a → Except g b}
    {v : b} (h : Except.bind x f = .ok v) : ∃ u, x = .ok u ∧ f u = .ok v := by
  cases x with
  | error e => exact Except.noConfusion h
  | ok u => exact ⟨u, rfl, h⟩

/-- Inverting a successful `Option.elim` whose `none` branch is an error. -/
theorem option_elim_ok {a b g : Type} {o : Option a} {er : g}
    {f : a → Except g b} {v : b}
    (h : o.elim (Except.error er) f = .ok v) : ∃ u, o = some u ∧ f u = .ok v := by
  cases o with
  | none => exact Except.noConfusion h
  | some u => exact ⟨u, rfl, h⟩

/-- A `fit_est` unit whose test range is `None` leaves the prediction
buffer exactly as handed to it. -/
theorem fit_est_tei_none {cache : Cache} {case : Option Str} {inst_name : Str}
    {inst : Inst} {X : Dm} {y : List Int} {pred : Option PredMat}
    {tri : Option Rng} {col : Nat} {raise_on_exception : Bool}
    {name : Option Str} {lim s fuel : Nat} {ws : List Warn}
    {c' : Cache} {p' : Option PredMat} {w' : List Warn}
    (h : fit_est cache case inst_name inst X y pred (tri, none, col)
      raise_on_exception name lim s fuel ws = .ok (c', p', w')) :
    p' = pred := by
  obtain ⟨⟨v, ws1⟩, hload, h⟩ := except_bind_ok h
  cases v with
  | bundle nm e0 i0 => exact Except.noConfusion h
  | trList tr_list =>
    obtain ⟨x1, htr, h⟩ := except_bind_ok h
    obtain ⟨⟨estOpt, ws2⟩, hfe, h⟩ := except_bind_ok h
    have hp : pred = p' := congrArg (fun t => t.2.1) (Except.ok.inj h)
    exact hp.symm

/-- A `fit_est` unit with a test range writes exactly the rows of that
range in its single assigned column: the returned buffer is a
`writeSlice` of the handed buffer. -/
theorem fit_est_tei_some {cache : Cache} {case : Option Str} {inst_name : Str}
    {inst : Inst} {X : Dm} {y : List Int} {pred : Option PredMat}
    {tri : Option Rng} {r : Rng} {col : Nat} {raise_on_exception : Bool}
    {name : Option Str} {lim s fuel : Nat} {ws : List Warn}
    {c' : Cache} {p' : Option PredMat} {w' : List Warn}
    (h : fit_est cache case inst_name inst X y pred (tri, some r, col)
      raise_on_exception name lim s fuel ws = .ok (c', p', w')) :
    ∃ Q pv, pred = some Q ∧ p' = some (writeSlice Q r col pv) := by
  obtain ⟨⟨v, ws1⟩, hload, h⟩ := except_bind_ok h
  cases v with
  | bundle nm e0 i0 => exact Except.noConfusion h
  | trList tr_list =>
    obtain ⟨x1, htr, h⟩ := except_bind_ok h
    obtain ⟨⟨estOpt, ws2⟩, hfe, h⟩ := except_bind_ok h
    obtain ⟨xt1, htr2, h⟩ := except_bind_ok h
    obtain ⟨⟨pv, ws3⟩, hprd, h⟩ := except_bind_ok h
    cases pred with
    | none => exact Except.noConfusion h
    | some Q =>
      have hp : some (writeSlice Q r col pv) = p' :=
        congrArg (fun t => t.2.1) (Except.ok.inj h)
      exact ⟨Q, pv, rfl, hp.symm⟩

/-- Frame property of the per-task stage-2 inner loop. -/
theorem stage2Inner_frame (X : Dm) (y : List Int) (cm : IdxMap)
    (name : Option Str) (raise_on_exception : Bool) (lim s fuel : Nat)
    (cid : Option Str) (tri tei : Option Rng) :
    ∀ (insts : List (Str × Inst)) (c : Cache) (P : PredMat) (ws : List Warn)
      (c' : Cache) (P' : PredMat) (ws' : List Warn),
    stage2Inner X y cm name raise_on_exception lim s fuel cid tri tei insts c P ws
      = .ok (c', P', ws') →
    ∀ i j, (∀ nm ∈ insts.map Prod.fst, ∀ (r : Rng) (col : Nat), tei = some r →
        dlookup cm ((cid, nm) : ColKey) = some col →
        ¬ (r.1 ≤ i ∧ i < r.2 ∧ j = col)) →
    P' i j = P i j := by
  intro insts
  induction insts with
  | nil =>
    intro c P ws c' P' ws' h i j _
    have hP : P = P' := congrArg (fun t => t.2.1) (Except.ok.inj h)
    rw [← hP]
  | cons p rest ih =>
    intro c P ws c' P' ws' h i j hout
    obtain ⟨nm, ei⟩ := p
    obtain ⟨col, hcol, h⟩ := option_elim_ok h
    obtain ⟨⟨c2, P2, ws2⟩, hfe, h⟩ := except_bind_ok h
    have hrest := ih c2 (P2.getD P) ws2 c' P' ws' h i j
      (fun nm' hnm' r col' hr hc =>
        hout nm' (List.mem_cons_of_mem _ hnm') r col' hr hc)
    rw [hrest]
    cases htei : tei with
    | none =>
      rw [htei] at hfe
      rw [fit_est_tei_none hfe]
      rfl
    | some r =>
      rw [htei] at hfe
      obtain ⟨Q, pv, hQ, hP2⟩ := fit_est_tei_some hfe
      have hQP : P = Q :=
        Option.some.inj (show (some P : Option PredMat) = some Q from hQ)
      subst hQP
      rw [hP2]
      exact writeSlice_frame P r col pv i j
        (hout nm (List.mem_cons_self nm (rest.map Prod.fst)) r col htei hcol)

/-- Frame property of stage 2 over the whole estimator task list. -/
theorem stage2_frame (X : Dm) (y : List Int) (cm : IdxMap)
    (name : Option Str) (raise_on_exception : Bool) (lim s fuel : Nat) :
    ∀ (tasks : List ETask) (c : Cache) (P : PredMat) (ws : List Warn)
      (c' : Cache) (P' : PredMat) (ws' : List Warn),
    stage2 X y cm name raise_on_exception lim s fuel tasks c P ws
      = .ok (c', P', ws') →
    ∀ i j, (∀ t ∈ tasks, ∀ nm ∈ t.insts.map Prod.fst, ∀ (r : Rng) (col : Nat),
        t.tei = some r → dlookup cm ((t.cid, nm) : ColKey) = some col →
        ¬ (r.1 ≤ i ∧ i < r.2 ∧ j = col)) →
    P' i j = P i j := by
  intro tasks
  induction tasks with
  | nil =>
    intro c P ws c' P' ws' h i j _
    have hP : P = P' := congrArg (fun t => t.2.1) (Except.ok.inj h)
    rw [← hP]
  | cons t rest ih =>
    intro c P ws c' P' ws' h i j hout
    obtain ⟨⟨c2, P2, ws2⟩, hin, h⟩ := except_bind_ok h
    have hrest := ih c2 P2 ws2 c' P' ws' h i j
      (fun t' ht' => hout t' (List.mem_cons_of_mem _ ht'))
    rw [hrest]
    exact stage2Inner_frame X y cm name raise_on_exception lim s fuel
      t.cid t.tri t.tei t.insts c P ws c2 P2 ws2 hin i j
      (fun nm hnm r col hr hc =>
        hout t (List.mem_cons_self t rest) nm hnm r col hr hc)

/-- **C9.** Frame property of `fit` on the prediction matrix: a `fit_est`
unit whose test range is `None` returns the prediction buffer exactly as
handed (and a whole inner loop of `tei = None` tasks leaves the matrix
unchanged); a unit with test range `r` and assigned column `col` returns a
`writeSlice` of the handed buffer, which agrees with it on every cell
outside rows `[r.1, r.2)` of column `col`; consequently, after a successful
`fit`, every cell outside the union of the expanded tasks'
`(test_range, column)` rectangles holds its original value. -/
theorem C9_theorem (layer : Layer) (X : Dm) (y : List Int) (P : PredMat)
    (cache : Cache) (name : Option Str) (lim s fuel : Nat)
    {ests transL : List (Option Str × CacheVal)} {P' : PredMat}
    {cache' : Cache} {ws : List Warn} {cm : IdxMap}
    (hcm : get_col_idx (some layer.preprocessing) layer.estimators
        (expand_instance_list layer.estimators layer.indexer) = .ok cm)
    (hfit : fit layer X y P cache name lim s fuel
        = .ok (ests, transL, P', cache', ws)) :
    (∀ (c0 : Cache) (case : Option Str) (inst_name : Str) (inst : Inst)
        (pred : Option PredMat) (tri : Option Rng) (col : Nat) (b : Bool)
        (w0 : List Warn) (c1 : Cache) (p1 : Option PredMat) (w1 : List Warn),
      fit_est c0 case inst_name inst X y pred (tri, none, col) b name lim s
          fuel w0 = .ok (c1, p1, w1) → p1 = pred) ∧
    (∀ (cid : Option Str) (tri : Option Rng) (insts : List (Str × Inst))
        (b : Bool) (c0 : Cache) (P0 : PredMat) (w0 : List Warn)
        (c1 : Cache) (P1 : PredMat) (w1 : List Warn),
      stage2Inner X y cm name b lim s fuel cid tri none insts c0 P0 w0
          = .ok (c1, P1, w1) → P1 = P0) ∧
    (∀ (c0 : Cache) (case : Option Str) (inst_name : Str) (inst : Inst)
        (pred : Option PredMat) (tri : Option Rng) (r : Rng) (col : Nat)
        (b : Bool) (w0 : List Warn) (c1 : Cache) (p1 : Option PredMat)
        (w1 : List Warn),
      fit_est c0 case inst_name inst X y pred (tri, some r, col) b name lim s
          fuel w0 = .ok (c1, p1, w1) →
        ∃ Q pv, pred = some Q ∧ p1 = some (writeSlice Q r col pv) ∧
          ∀ i j, ¬ (r.1 ≤ i ∧ i < r.2 ∧ j = col) →
            writeSlice Q r col pv i j = Q i j) ∧
    (∀ i j,
      (∀ t ∈ expand_instance_list layer.estimators layer.indexer,
        ∀ nm ∈ t.insts.map Prod.fst, ∀ (r : Rng) (col : Nat), t.tei = some r →
        dlookup cm ((t.cid, nm) : ColKey) = some col →
        ¬ (r.1 ≤ i ∧ i < r.2 ∧ j = col)) →
      P' i j = P i j) := by
  refine ⟨?_, ?_, ?_, ?_⟩
  · intro c0 case inst_name inst pred tri col b w0 c1 p1 w1 h
    exact fit_est_tei_none h
  · intro cid tri insts b c0 P0 w0 c1 P1 w1 h
    funext i j
    exact stage2Inner_frame X y cm name b lim s fuel cid tri none insts
      c0 P0 w0 c1 P1 w1 h i j (fun nm _ r col hr _ => Option.noConfusion hr)
  · intro c0 case inst_name inst pred tri r col b w0 c1 p1 w1 h
    obtain ⟨Q, pv, hQ, hp⟩ := fit_est_tei_some h
    exact ⟨Q, pv, hQ, hp, fun i j hij => writeSlice_frame Q r col pv i j hij⟩
  · obtain ⟨cm0, hg, h⟩ := except_bind_ok hfit
    rw [hg] at hcm
    obtain rfl := Except.ok.inj hcm
    obtain ⟨cache1, hs1, h⟩ := except_bind_ok h
    obtain ⟨⟨cache2, P2, ws2⟩, hs2, h⟩ := except_bind_ok h
    obtain ⟨transL0, ha1, h⟩ := except_bind_ok h
    obtain ⟨ests0, ha2, h⟩ := except_bind_ok h
    have hP : P2 = P' := congrArg (fun t => t.2.2.1) (Except.ok.inj h)
    intro i j hout
    rw [← hP]
    exact stage2_frame X y cm0 name layer.raise_on_exception lim s fuel
      (expand_instance_list layer.estimators layer.indexer) cache1 P []
      cache2 P2 ws2 hs2 i j hout

/-- Witness for C9 at a concrete configuration: a flat one-estimator layer
with no fold generator fits successfully and every cell of the prediction
matrix — here cell (0,0) — keeps its initial value. -/
theorem C9_witness :
    ∃ (ests transL : List (Option Str × CacheVal)) (P' : PredMat)
      (cache' : Cache) (ws : List Warn),
      fit c9Layer [[1], [2]] [5, 6] zeroMat emptyCache none 10 1 30
        = .ok (ests, transL, P', cache', ws) ∧ P' 0 0 = zeroMat 0 0 := by
  exact ⟨_, _, _, _, _, rfl,
    (C9_theorem c9Layer [[1], [2]] [5, 6] zeroMat emptyCache none
        10 1 30 rfl rfl).2.2.2 0 0
      (fun t ht nm hnm r col hr hc => by
        have ht2 : t ∈ [(⟨none, none, none, [("e".data, okEst)]⟩ : ETask)] := ht
        rw [List.mem_singleton] at ht2
        subst ht2
        exact Option.noConfusion hr)⟩

end MlensStacking
